import Mathlib

/-!
Verification of the spreadsheet core (`spreadsheet/` in the repository):
address codec and sheet model (`model.py`), formula tokenizer, parser and
evaluator (`formula.py`), dependency graph and calculation engine
(`engine.py`), and the undo/redo log (`undo.py`).

The Python source is shallowly embedded: Python dicts become association
lists or function-backed maps, Python sets become duplicate-free lists,
`float` arithmetic is modelled by exact fractions (every numeric
computation in the verified scenarios stays on small integers, where IEEE
doubles are exact),
exceptions become `Except` / `Option`, and unbounded `while` loops take a
fuel argument whose initial value provably dominates the number of
iterations the Python loop can perform.  Character predicates (`isdigit`,
`isalpha`, `isspace`, `upper`) are modelled on the ASCII range, which is
the range exercised by the code's own tests and by every claim.
-/

namespace Spreadsheet

/-! ### Python character and string helpers -/

/-- `str.upper()` on a single ASCII character (`a`..`z` map to `A`..`Z`,
everything else is unchanged).  Python `upper()` also maps some non-ASCII
letters into `A`..`Z` (e.g. the dotless i to `I`); that is outside this
model, so theorems about the acceptance domain of `parse_address`
quantify over ASCII inputs only. -/
def pyUpperChar (c : Char) : Char :=
  if 'a' ≤ c ∧ c ≤ 'z' then Char.ofNat (c.toNat - 32) else c

/-- Numeric value of a string of decimal digits, as Python `int` computes it
on a digit-only string (most significant first). -/
def digitsToNat (cs : List Char) : Nat :=
  cs.foldl (fun acc c => acc * 10 + (c.toNat - 48)) 0

/-- Python `int(s)` on a plain decimal literal: optional single sign
followed by a nonempty digit string. -/
def pyIntChars : List Char → Option Int
  | [] => none
  | c :: rest =>
    if c = '-' then
      if rest ≠ [] ∧ rest.all Char.isDigit then some (-(digitsToNat rest : Int)) else none
    else if c = '+' then
      if rest ≠ [] ∧ rest.all Char.isDigit then some ((digitsToNat rest : Int)) else none
    else if (c :: rest).all Char.isDigit then some ((digitsToNat (c :: rest) : Int)) else none

/-- Python `int(s)`. -/
def pyIntOpt (s : String) : Option Int :=
  pyIntChars s.data

/-! Python `float` values.  Every float that the spreadsheet computes with
is a dyadic (hence rational) number, and every arithmetic step exercised by
the claims is exact in IEEE doubles, so floats are modelled as exact
fractions.  The fractions are deliberately kept unnormalized (no gcd) with
a positive denominator so that every operation is plain `Int` arithmetic,
which the Lean kernel evaluates; Python-level `==`, `<` and `≤` compare by
cross-multiplication. -/

/-- An unnormalized fraction `num / den` with `den > 0` by construction. -/
structure PyFloat where
  num : Int
  den : Int
deriving DecidableEq, Repr

namespace PyFloat

def ofInt (i : Int) : PyFloat := ⟨i, 1⟩

def ofNat (n : Nat) : PyFloat := ⟨(n : Int), 1⟩

def add (a b : PyFloat) : PyFloat := ⟨a.num * b.den + b.num * a.den, a.den * b.den⟩

def sub (a b : PyFloat) : PyFloat := ⟨a.num * b.den - b.num * a.den, a.den * b.den⟩

def mul (a b : PyFloat) : PyFloat := ⟨a.num * b.num, a.den * b.den⟩

def neg (a : PyFloat) : PyFloat := ⟨-a.num, a.den⟩

/-- Division; the callers guard against a zero divisor, and the sign is
moved into the numerator to keep the denominator positive. -/
def div (a b : PyFloat) : PyFloat :=
  if b.num < 0 then ⟨-(a.num * b.den), a.den * (-b.num)⟩
  else ⟨a.num * b.den, a.den * b.num⟩

def isZero (a : PyFloat) : Bool := a.num == 0

/-- Python `==` between floats: cross-multiplied equality. -/
def eqv (a b : PyFloat) : Bool := a.num * b.den == b.num * a.den

/-- Python `<` between floats. -/
def lt (a b : PyFloat) : Bool := a.num * b.den < b.num * a.den

/-- Python `<=` between floats. -/
def le (a b : PyFloat) : Bool := a.num * b.den ≤ b.num * a.den

/-- Python `min` of two floats (keeps the first on ties, like `min`). -/
def min2 (a b : PyFloat) : PyFloat := if le a b then a else b

/-- Python `max` of two floats (keeps the first on ties, like `max`). -/
def max2 (a b : PyFloat) : PyFloat := if lt a b then b else a

/-- The value is an integer (Python `float.is_integer`-style test, used to
model integral exponents and integral printing). -/
def isIntegral (a : PyFloat) : Bool := a.num % a.den == 0

/-- `10 ** i` as an exact fraction, for any integer `i`. -/
def pow10 (i : Int) : PyFloat :=
  if 0 ≤ i then ⟨(10 : Int) ^ i.toNat, 1⟩ else ⟨1, (10 : Int) ^ (-i).toNat⟩

/-- `a ** n` for a natural exponent. -/
def powNat (a : PyFloat) (n : Nat) : PyFloat := ⟨a.num ^ n, a.den ^ n⟩

/-- `math.floor` of the fraction (exact, since `den > 0`). -/
def floorInt (a : PyFloat) : Int := a.num.ediv a.den

/-- Python `int()` truncation toward zero. -/
def truncInt (a : PyFloat) : Int := a.num.tdiv a.den

end PyFloat

/-- Fractional decimal value: digits `cs` read after a decimal point. -/
def fracVal (cs : List Char) : PyFloat :=
  ⟨(digitsToNat cs : Int), (10 : Int) ^ cs.length⟩

/-- Python `float(s)` restricted to plain decimal literals: optional sign,
then digits with at most one decimal point and at least one digit
(`"7"`, `"-2.5"`, `".5"`, `"5."`).  Scientific notation, `inf`/`nan` and
surrounding whitespace are never produced by the tokenizer or stored by the
engine's numeric-literal check, so they are not modelled. -/
def pyFloatOpt (s : String) : Option PyFloat :=
  let core : List Char → Option PyFloat := fun cs =>
    let intPart := cs.takeWhile Char.isDigit
    match cs.drop intPart.length with
    | [] => if intPart ≠ [] then some (.ofNat (digitsToNat intPart)) else none
    | '.' :: rest =>
      if rest.all Char.isDigit ∧ (intPart ≠ [] ∨ rest ≠ []) then
        some ((PyFloat.ofNat (digitsToNat intPart)).add (fracVal rest))
      else none
    | _ => none
  match s.data with
  | '-' :: rest => (core rest).map (fun q => q.neg)
  | '+' :: rest => core rest
  | cs => core cs

/-! ### Address codec (`model.py`) -/

/-- `col_to_letter`, the body of its `while` loop: emit `chr(65 + col % 26)`
after the letters for `col // 26 - 1`, stopping when that quotient would be
negative (equivalently when `col < 26`).  The fuel strictly exceeds the
number of iterations because `col // 26 - 1 < col` whenever `col ≥ 26`. -/
def colToLetterAux : Nat → Nat → List Char
  | 0, _ => []
  | fuel + 1, col =>
    if col < 26 then [Char.ofNat (65 + col % 26)]
    else colToLetterAux fuel (col / 26 - 1) ++ [Char.ofNat (65 + col % 26)]

/-- `col_to_letter(col)`: 0-based column index to bijective base-26 letters. -/
def col_to_letter (col : Nat) : String :=
  ⟨colToLetterAux (col + 1) col⟩

/-- The fold inside `letter_to_col`: `result = result * 26 + (ord(char) - 64)`. -/
def letterVal (cs : List Char) : Int :=
  cs.foldl (fun acc c => acc * 26 + ((c.toNat : Int) - 64)) 0

/-- `letter_to_col(letter)`: uppercases the string, folds, and subtracts 1. -/
def letter_to_col (s : String) : Int :=
  letterVal (s.data.map pyUpperChar) - 1

/-- Python `str(n)` for a natural number, digit extraction loop with fuel
(the recursion argument `n / 10` strictly decreases while `n ≥ 10`). -/
def natReprAux : Nat → Nat → List Char
  | 0, _ => []
  | fuel + 1, n =>
    if n < 10 then [Char.ofNat (48 + n % 10)]
    else natReprAux fuel (n / 10) ++ [Char.ofNat (48 + n % 10)]

/-- Decimal rendering of a natural number, as Python f-strings print it. -/
def natRepr (n : Nat) : String :=
  ⟨natReprAux (n + 1) n⟩

/-- Decimal rendering of an integer, as Python f-strings print it. -/
def intRepr (i : Int) : String :=
  if i < 0 then "-" ++ natRepr i.natAbs else natRepr i.natAbs

/-- The anchored body of `re.match(r'^([A-Z]+)(\d+)$', ...)` on the
(possibly newline-stripped) core: `[A-Z]+` being greedy and disjoint from
`\d` means the only candidate split is the maximal uppercase-letter
prefix followed by an all-digit remainder, both nonempty.  `\d` is
modelled by ASCII `Char.isDigit`; Python `\d` also matches Unicode
decimal digits, so the exact-domain theorem is stated over ASCII inputs
only. -/
def reMatchCore (core : List Char) : Option (List Char × List Char) :=
  if core.takeWhile Char.isUpper ≠ []
      ∧ core.drop (core.takeWhile Char.isUpper).length ≠ []
      ∧ (core.drop (core.takeWhile Char.isUpper).length).all Char.isDigit
  then some (core.takeWhile Char.isUpper, core.drop (core.takeWhile Char.isUpper).length)
  else none

/-- `re.match(r'^([A-Z]+)(\d+)$', cs)`: Python `$` matches at the end of
the string or just before one final newline, so the match runs on the
input minus one optional trailing newline. -/
def reMatchAddr (cs : List Char) : Option (List Char × List Char) :=
  reMatchCore (if cs.getLast? = some '\n' then cs.dropLast else cs)

/-- `parse_address(addr)`: match the regex against `addr.upper()`; on
success return `(int(row_str) - 1, letter_to_col(col_str))`.  The Python
function raises `ValueError` on failure, modelled as `none`. -/
def parse_address (s : String) : Option (Int × Int) :=
  match reMatchAddr (s.data.map pyUpperChar) with
  | none => none
  | some (ls, ds) => some ((digitsToNat ds : Int) - 1, letter_to_col ⟨ls⟩)

/-- `address_to_string(row, col) = f"{col_to_letter(col)}{row + 1}"`.
Stated on naturals: the claims quantify over nonnegative coordinates. -/
def address_to_string (row col : Nat) : String :=
  col_to_letter col ++ natRepr (row + 1)

/-- Inclusive integer range `[a, a+1, ..., b]` (`range(a, b + 1)`). -/
def intRangeIncl (a b : Int) : List Int :=
  (List.range (b - a + 1).toNat).map (fun k => a + k)

/-- `parse_range(range_str)`: no colon means a single parsed address;
otherwise split on the first colon, parse both ends, and enumerate the
rectangle `min..max × min..max` in row-major order. -/
def parse_range (s : String) : Option (List (Int × Int)) :=
  if ':' ∈ s.data then
    let start_addr : List Char := s.data.takeWhile (· ≠ ':')
    let end_addr : List Char := (s.data.drop start_addr.length).drop 1
    match parse_address ⟨start_addr⟩, parse_address ⟨end_addr⟩ with
    | some (sr, sc), some (er, ec) =>
      some ((intRangeIncl (min sr er) (max sr er)).flatMap (fun r =>
        (intRangeIncl (min sc ec) (max sc ec)).map (fun c => (r, c))))
    | _, _ => none
  else
    (parse_address s).map (fun rc => [rc])

/-! ### Formula tokenizer (`formula.py`, `FormulaTokenizer`) -/

inductive TokenType where
  | number | string | cellRef | range | function | operator
  | lparen | rparen | comma | eof
deriving DecidableEq, Repr

/-- A token; the `position` field of the Python class is build-time
debugging data never read by the parser, so it is not modelled. -/
structure Token where
  type : TokenType
  value : String
deriving DecidableEq, Repr

/-- `re.match(r'^[A-Z]+\d+$', value)` for identifier classification:
a nonempty run of uppercase letters followed by a nonempty run of digits
(identifiers contain no newline, so the `$`-before-newline case is vacuous). -/
def isCellName (cs : List Char) : Bool :=
  let ls := cs.takeWhile Char.isUpper
  let ds := cs.drop ls.length
  ls ≠ [] && ds ≠ [] && ds.all Char.isDigit

/-- The single-character operator alphabet `'+-*/^=<>'`. -/
def isOpChar (c : Char) : Bool :=
  c == '+' || c == '-' || c == '*' || c == '/' || c == '^' ||
  c == '=' || c == '<' || c == '>'

/-- Python `str.strip()`: drop whitespace from both ends. -/
def pyStrip (cs : List Char) : List Char :=
  ((cs.dropWhile Char.isWhitespace).reverse.dropWhile Char.isWhitespace).reverse

/-- `FormulaTokenizer.__init__`: strip the formula and drop a leading `=`. -/
def tokInit (s : String) : List Char :=
  let f := pyStrip s.data
  if f.head? = some '=' then f.tail else f

/-- The `tokenize` main loop.  One fuel unit is spent per iteration of the
Python `while`; every iteration except the final end-of-input check consumes
at least one character, so `length + 1` fuel always suffices and the fuel-0
branch is unreachable for `tokenize` below.  Unknown characters take the
final `else` branch: `self.position += 1`, i.e. they are silently skipped. -/
def tokLoop : Nat → List Char → List Token
  | 0, _ => [⟨.eof, ""⟩]
  | fuel + 1, cs0 =>
    match cs0.dropWhile Char.isWhitespace with
    | [] => [⟨.eof, ""⟩]
    | c :: rest =>
      if c.isDigit || c == '.' then
        -- _read_number: a run of digits and dots
        let numChars := (c :: rest).takeWhile (fun d => d.isDigit || d == '.')
        ⟨.number, ⟨numChars⟩⟩ :: tokLoop fuel ((c :: rest).drop numChars.length)
      else if c == '"' then
        -- _read_string: up to the next quote; if the string is unterminated
        -- the Python slice formula[start+1:position-1] drops the last char
        let content := rest.takeWhile (fun d => d ≠ '"')
        match rest.drop content.length with
        | _ :: rest2 => ⟨.string, ⟨content⟩⟩ :: tokLoop fuel rest2
        | [] => ⟨.string, ⟨content.dropLast⟩⟩ :: tokLoop fuel []
      else if c.isAlpha then
        -- _read_identifier
        let ident := (c :: rest).takeWhile Char.isAlphanum
        let rest0 := (c :: rest).drop ident.length
        if isCellName ident then
          match rest0 with
          | ':' :: rest1 =>
            if rest1 ≠ [] then
              -- position < len(formula) - 1: the colon is not the last char
              let rangeEnd := rest1.takeWhile Char.isAlphanum
              let rest2 := rest1.drop rangeEnd.length
              if isCellName rangeEnd then
                ⟨.range, ⟨ident ++ ':' :: rangeEnd⟩⟩ :: tokLoop fuel rest2
              else
                -- invalid range: emit the cell ref and reset position to the
                -- colon (self.position = range_start - 1)
                ⟨.cellRef, ⟨ident⟩⟩ :: tokLoop fuel (':' :: rest1)
            else
              ⟨.cellRef, ⟨ident⟩⟩ :: tokLoop fuel rest0
          | _ => ⟨.cellRef, ⟨ident⟩⟩ :: tokLoop fuel rest0
        else
          ⟨.function, ⟨ident⟩⟩ :: tokLoop fuel rest0
      else if isOpChar c then
        -- _read_operator: '<', '>', '=' absorb a following '='
        if c == '<' || c == '>' || c == '=' then
          match rest with
          | '=' :: rest2 => ⟨.operator, ⟨[c, '=']⟩⟩ :: tokLoop fuel rest2
          | _ => ⟨.operator, ⟨[c]⟩⟩ :: tokLoop fuel rest
        else ⟨.operator, ⟨[c]⟩⟩ :: tokLoop fuel rest
      else if c == '(' then ⟨.lparen, "("⟩ :: tokLoop fuel rest
      else if c == ')' then ⟨.rparen, ")"⟩ :: tokLoop fuel rest
      else if c == ',' then ⟨.comma, ","⟩ :: tokLoop fuel rest
      else tokLoop fuel rest

/-- `FormulaTokenizer(formula).tokenize()`. -/
def tokenize (s : String) : List Token :=
  let f := tokInit s
  tokLoop (f.length + 1) f

/-! ### Formula AST and parser (`formula.py`, `FormulaParser`) -/

inductive AST where
  | number (v : PyFloat)
  | strLit (s : String)
  | cellRef (row col : Int)
  | range (cells : List (Int × Int))
  | binary (op : String) (left right : AST)
  | unary (op : String) (operand : AST)
  | function (name : String) (args : List AST)

/-! The parser functions, one per precedence level, each returning the node
and the unconsumed tokens; `none` models a raised `ValueError`.  Fuel is
spent on every call; only the grammar-level descent (at most seven calls)
happens without consuming a token, so `8 * (length + 1)` fuel suffices and
the fuel-0 branches are unreachable for `parse_formula` below. -/
mutual

def parseExpression : Nat → List Token → Option (AST × List Token)
  | 0, _ => none
  | fuel + 1, ts => parseComparison fuel ts

def parseComparison : Nat → List Token → Option (AST × List Token)
  | 0, _ => none
  | fuel + 1, ts =>
    match parseAddition fuel ts with
    | none => none
    | some (node, ts1) => parseCompLoop fuel node ts1

def parseCompLoop : Nat → AST → List Token → Option (AST × List Token)
  | 0, _, _ => none
  | fuel + 1, node, ts =>
    match ts with
    | ⟨.operator, v⟩ :: rest =>
      if v ∈ ["=", "<>", "<", "<=", ">", ">="] then
        match parseAddition fuel rest with
        | none => none
        | some (right, ts2) => parseCompLoop fuel (.binary v node right) ts2
      else some (node, ts)
    | _ => some (node, ts)

def parseAddition : Nat → List Token → Option (AST × List Token)
  | 0, _ => none
  | fuel + 1, ts =>
    match parseMultiplication fuel ts with
    | none => none
    | some (node, ts1) => parseAddLoop fuel node ts1

def parseAddLoop : Nat → AST → List Token → Option (AST × List Token)
  | 0, _, _ => none
  | fuel + 1, node, ts =>
    match ts with
    | ⟨.operator, v⟩ :: rest =>
      if v = "+" ∨ v = "-" then
        match parseMultiplication fuel rest with
        | none => none
        | some (right, ts2) => parseAddLoop fuel (.binary v node right) ts2
      else some (node, ts)
    | _ => some (node, ts)

def parseMultiplication : Nat → List Token → Option (AST × List Token)
  | 0, _ => none
  | fuel + 1, ts =>
    match parsePower fuel ts with
    | none => none
    | some (node, ts1) => parseMulLoop fuel node ts1

def parseMulLoop : Nat → AST → List Token → Option (AST × List Token)
  | 0, _, _ => none
  | fuel + 1, node, ts =>
    match ts with
    | ⟨.operator, v⟩ :: rest =>
      if v = "*" ∨ v = "/" then
        match parsePower fuel rest with
        | none => none
        | some (right, ts2) => parseMulLoop fuel (.binary v node right) ts2
      else some (node, ts)
    | _ => some (node, ts)

def parsePower : Nat → List Token → Option (AST × List Token)
  | 0, _ => none
  | fuel + 1, ts =>
    match parseUnary fuel ts with
    | none => none
    | some (node, ts1) =>
      match ts1 with
      | ⟨.operator, "^"⟩ :: rest =>
        -- right associative: recurse into parsePower itself
        match parsePower fuel rest with
        | none => none
        | some (right, ts2) => some (.binary "^" node right, ts2)
      | _ => some (node, ts1)

def parseUnary : Nat → List Token → Option (AST × List Token)
  | 0, _ => none
  | fuel + 1, ts =>
    match ts with
    | ⟨.operator, v⟩ :: rest =>
      if v = "+" ∨ v = "-" then
        match parseUnary fuel rest with
        | none => none
        | some (operand, ts1) => some (.unary v operand, ts1)
      else parsePrimary fuel ts
    | _ => parsePrimary fuel ts

def parsePrimary : Nat → List Token → Option (AST × List Token)
  | 0, _ => none
  | fuel + 1, ts =>
    match ts with
    | ⟨.number, v⟩ :: rest =>
      -- float(token.value) can raise on inputs such as "1.2.3"
      match pyFloatOpt v with
      | some q => some (.number q, rest)
      | none => none
    | ⟨.string, v⟩ :: rest => some (.strLit v, rest)
    | ⟨.cellRef, v⟩ :: rest =>
      match parse_address v with
      | some (r, c) => some (.cellRef r c, rest)
      | none => none
    | ⟨.range, v⟩ :: rest =>
      match parse_range v with
      | some cells => some (.range cells, rest)
      | none => none
    | ⟨.function, _⟩ :: _ => parseFunctionCall fuel ts
    | ⟨.lparen, _⟩ :: rest =>
      match parseExpression fuel rest with
      | none => none
      | some (node, ts1) =>
        -- a missing closing paren is NOT an error: it is consumed only if
        -- present
        match ts1 with
        | ⟨.rparen, _⟩ :: ts2 => some (node, ts2)
        | _ => some (node, ts1)
    | _ => none

def parseFunctionCall : Nat → List Token → Option (AST × List Token)
  | 0, _ => none
  | fuel + 1, ts =>
    match ts with
    | ⟨.function, name⟩ :: ⟨.lparen, _⟩ :: rest =>
      match rest with
      | ⟨.rparen, _⟩ :: ts2 => some (.function name [], ts2)
      | _ =>
        match parseExpression fuel rest with
        | none => none
        | some (first, ts1) =>
          match parseArgsLoop fuel [first] ts1 with
          | none => none
          | some (args, ts2) =>
            match ts2 with
            | ⟨.rparen, _⟩ :: ts3 => some (.function name args, ts3)
            | _ => none
    | _ => none

def parseArgsLoop : Nat → List AST → List Token → Option (List AST × List Token)
  | 0, _, _ => none
  | fuel + 1, args, ts =>
    match ts with
    | ⟨.comma, _⟩ :: rest =>
      match parseExpression fuel rest with
      | none => none
      | some (node, ts1) => parseArgsLoop fuel (args ++ [node]) ts1
    | _ => some (args, ts)

end

/-- `parse_formula(formula)`: tokenize and parse one expression (tokens left
over after the first expression are ignored, as in the source). -/
def parse_formula (s : String) : Option AST :=
  let ts := tokenize s
  (parseExpression (8 * (ts.length + 1)) ts).map (fun p => p.1)

/-! ### Evaluator (`formula.py`, `FormulaEvaluator`) -/

/-- Runtime values: Python floats/ints (`Rat`), strings, booleans, and the
lists produced by ranges.  `None` never reaches the evaluator
(`_get_cell_value` replaces it with `""`). -/
inductive Value where
  | num (q : PyFloat)
  | str (s : String)
  | bool (b : Bool)
  | list (vs : List Value)

/-- The exceptions `evaluate` catches: `ZeroDivisionError`, `ValueError`,
and everything else. -/
inductive Exc where
  | zeroDiv | valueError | otherError
deriving DecidableEq

/-- `isinstance(v, str) and v.startswith('#')`: the sentinel test
(`startswith('#')` is exactly a first-character test). -/
def isSentinelStr (v : Value) : Option String :=
  match v with
  | .str s => if s.data.head? = some '#' then some s else none
  | _ => none

/-- `_to_number`.  Python checks `isinstance(value, (int, float))` first,
which is true for `bool` (a subclass of `int`), so booleans numerify to
1.0/0.0 there; the later dedicated `bool` branch is dead code. -/
def toNumber : Value → Except Exc PyFloat
  | .num q => .ok q
  | .bool b => .ok (.ofNat (if b then 1 else 0))
  | .str s =>
    if s = "" then .ok (.ofNat 0)
    else
      match pyFloatOpt s with
      | some q => .ok q
      | none => .error .valueError
  | .list _ => .error .valueError

/-- `value.replace('.', '').replace('-', '').isdigit()`: the numeric-looking
test used for cell references and literal cells (`""` fails: Python
`isdigit` is false on the empty string). -/
def digitish (s : String) : Bool :=
  let t := s.data.filter (fun c => c ≠ '.' ∧ c ≠ '-')
  t ≠ [] && t.all Char.isDigit

/-- `value != ""` in Python: false exactly for the empty string. -/
def notEmptyStr (v : Value) : Bool :=
  match v with
  | .str "" => false
  | _ => true

/-! Python `==` on runtime values: numbers and booleans compare numerically
across types, strings only with strings, lists elementwise. -/
mutual

def pyEq : Value → Value → Bool
  | .num a, .num b => a.eqv b
  | .num a, .bool b => a.eqv (.ofNat (if b then 1 else 0))
  | .bool a, .num b => (PyFloat.ofNat (if a then 1 else 0)).eqv b
  | .bool a, .bool b => a == b
  | .str a, .str b => a == b
  | .list a, .list b => pyEqList a b
  | _, _ => false

def pyEqList : List Value → List Value → Bool
  | [], [] => true
  | a :: as, b :: bs => pyEq a b && pyEqList as bs
  | _, _ => false

end

/-- Python `**` after numeric coercion of both sides.  Integral exponents
land in `Rat`; `0 ** negative` raises `ZeroDivisionError`.  A fractional
exponent produces an irrational (or complex) float; no claim and no test
exercises that corner, so it is mapped to the generic failure that
`evaluate` turns into `#ERROR!`. -/
def pyPow (a b : PyFloat) : Except Exc PyFloat :=
  if b.isIntegral then
    let e := b.truncInt
    if a.isZero ∧ e < 0 then .error .zeroDiv
    else if 0 ≤ e then .ok (a.powNat e.toNat)
    else .ok ((PyFloat.ofNat 1).div (a.powNat (-e).toNat))
  else .error .otherError

/-- `_evaluate_binary_op` after both operands are evaluated: sentinel
short-circuit (left first), then the operator dispatch.  For `/` the right
operand is numerified first, exactly as in the source. -/
def evalBinary (op : String) (l r : Value) : Except Exc Value :=
  match isSentinelStr l with
  | some e => .ok (.str e)
  | none =>
    match isSentinelStr r with
    | some e => .ok (.str e)
    | none =>
      if op = "+" then do
        let a ← toNumber l; let b ← toNumber r; return .num (a.add b)
      else if op = "-" then do
        let a ← toNumber l; let b ← toNumber r; return .num (a.sub b)
      else if op = "*" then do
        let a ← toNumber l; let b ← toNumber r; return .num (a.mul b)
      else if op = "/" then do
        let b ← toNumber r
        if b.isZero then throw .zeroDiv
        else do
          let a ← toNumber l
          return .num (a.div b)
      else if op = "^" then do
        let a ← toNumber l; let b ← toNumber r
        let p ← pyPow a b
        return .num p
      else if op = "=" then return .bool (pyEq l r)
      else if op = "<>" then return .bool (!pyEq l r)
      else if op = "<" then do
        let a ← toNumber l; let b ← toNumber r; return .bool (a.lt b)
      else if op = "<=" then do
        let a ← toNumber l; let b ← toNumber r; return .bool (a.le b)
      else if op = ">" then do
        let a ← toNumber l; let b ← toNumber r; return .bool (b.lt a)
      else if op = ">=" then do
        let a ← toNumber l; let b ← toNumber r; return .bool (b.le a)
      else return .str "#ERROR!"

/-- `_flatten_ranges`. -/
def flattenRanges (args : List Value) : List Value :=
  args.flatMap (fun a =>
    match a with
    | .list vs => vs
    | v => [v])

/-- `_sum`. -/
def fnSum (args : List Value) : Except Exc Value := do
  let values := flattenRanges args
  let total ← values.foldlM
    (fun (acc : PyFloat) v =>
      if notEmptyStr v then do
        let n ← toNumber v
        return acc.add n
      else return acc) (PyFloat.ofNat 0)
  return .num total

/-- `_average` (an empty argument list yields the string `"#DIV/0!"`). -/
def fnAverage (args : List Value) : Except Exc Value := do
  let values := flattenRanges args
  let nums ← (values.filter notEmptyStr).mapM toNumber
  match nums with
  | [] => return .str "#DIV/0!"
  | _ => return .num ((nums.foldl PyFloat.add (PyFloat.ofNat 0)).div (.ofNat nums.length))

/-- `_min`. -/
def fnMin (args : List Value) : Except Exc Value := do
  let values := flattenRanges args
  let nums ← (values.filter notEmptyStr).mapM toNumber
  match nums with
  | [] => return .str "#VALUE!"
  | h :: t => return .num (t.foldl PyFloat.min2 h)

/-- `_max`. -/
def fnMax (args : List Value) : Except Exc Value := do
  let values := flattenRanges args
  let nums ← (values.filter notEmptyStr).mapM toNumber
  match nums with
  | [] => return .str "#VALUE!"
  | h :: t => return .num (t.foldl PyFloat.max2 h)

/-- `_count`. -/
def fnCount (args : List Value) : Except Exc Value :=
  .ok (.num (.ofNat ((flattenRanges args).filter notEmptyStr).length))

/-- `_if`: fewer than two arguments is `#VALUE!`; a boolean condition
branches directly, anything else is numerified and compared with 0; the
false branch defaults to `""`. -/
def fnIf (args : List Value) : Except Exc Value :=
  match args with
  | [] => .ok (.str "#VALUE!")
  | [_] => .ok (.str "#VALUE!")
  | condition :: trueValue :: rest =>
    let falseValue := match rest with
      | f :: _ => f
      | [] => .str ""
    match condition with
    | .bool b => .ok (if b then trueValue else falseValue)
    | _ => do
      let n ← toNumber condition
      return (if !n.isZero then trueValue else falseValue)

/-- `_abs`. -/
def fnAbs (args : List Value) : Except Exc Value :=
  match args with
  | [x] => do
    let n ← toNumber x
    return .num (if n.num < 0 then n.neg else n)
  | _ => .ok (.str "#VALUE!")

/-- Python `round(number, digits)`: round half to even at the given decimal
place.  (The spec calls for half-away-from-zero; the source uses the
built-in, which is banker's rounding — no claim exercises ROUND.) -/
def pyRound (number : PyFloat) (digits : Int) : PyFloat :=
  let scaled := number.mul (.pow10 digits)
  let fl := scaled.floorInt
  let frac := scaled.sub (.ofInt fl)
  let half : PyFloat := ⟨1, 2⟩
  let n : Int :=
    if frac.lt half then fl
    else if half.lt frac then fl + 1
    else if fl % 2 = 0 then fl else fl + 1
  (PyFloat.ofInt n).mul (.pow10 (-digits))

/-- `_round`. -/
def fnRound (args : List Value) : Except Exc Value :=
  match args with
  | [x] => do
    let n ← toNumber x
    return .num (pyRound n 0)
  | [x, d] => do
    let n ← toNumber x
    let dn ← toNumber d
    return .num (pyRound n dn.truncInt)
  | _ => .ok (.str "#VALUE!")

/-- The least decimal shift that clears the denominator, found by a
first-success linear search so that reduction stops early. -/
def decExpSearch : Nat → Nat → PyFloat → Option Nat
  | 0, _, _ => none
  | fuel + 1, k, q =>
    if (q.num * (10 : Int) ^ k) % q.den == 0 then some k
    else decExpSearch fuel (k + 1) q

/-- Python `str()` of a numeric value: integral floats print with a
trailing `.0`, dyadic fractions print their exact finite decimal expansion
(every IEEE float is dyadic with exponent above `-1100`; non-dyadic
rationals cannot arise from the embedded arithmetic on float-representable
data). -/
def pyStrNum (q : PyFloat) : String :=
  let sign := if q.num < 0 then "-" else ""
  if q.isIntegral then sign ++ natRepr (q.num.tdiv q.den).natAbs ++ ".0"
  else
    match decExpSearch 1200 0 q with
    | some k =>
      let m := q.num.natAbs * 10 ^ k / q.den.natAbs
      let ip := m / 10 ^ k
      let fp := m % 10 ^ k
      let fpDigits := natRepr fp
      let pad := String.mk (List.replicate (k - fpDigits.length) '0')
      sign ++ natRepr ip ++ "." ++ pad ++ fpDigits
    | none => sign ++ natRepr q.num.natAbs

/-- Python `str()` of a runtime value, as used by CONCAT.  Lists (ranges
passed directly to CONCAT) print via `repr` in Python; no claim exercises
that corner, so they are rendered as a bracket placeholder. -/
def pyStrValue : Value → String
  | .num q => pyStrNum q
  | .str s => s
  | .bool b => if b then "True" else "False"
  | .list _ => "[...]"

/-- `_concat`: join `str(arg)` over the raw (unflattened) argument list. -/
def fnConcat (args : List Value) : Except Exc Value :=
  .ok (.str (String.join (args.map pyStrValue)))

/-- The keys of the `self.functions` dispatch dictionary. -/
def knownFunctions : List String :=
  ["SUM", "AVERAGE", "MIN", "MAX", "COUNT", "IF", "ABS", "ROUND", "CONCAT"]

/-- `str.upper()`. -/
def pyUpper (s : String) : String :=
  ⟨s.data.map pyUpperChar⟩

/-- Dispatch `self.functions[func_name](args)`. -/
def applyFunction (name : String) (args : List Value) : Except Exc Value :=
  if name = "SUM" then fnSum args
  else if name = "AVERAGE" then fnAverage args
  else if name = "MIN" then fnMin args
  else if name = "MAX" then fnMax args
  else if name = "COUNT" then fnCount args
  else if name = "IF" then fnIf args
  else if name = "ABS" then fnAbs args
  else if name = "ROUND" then fnRound args
  else if name = "CONCAT" then fnConcat args
  else .ok (.str "#NAME?")

/-- The first evaluated argument that is an error sentinel, if any
(the `for arg in args` scan in `_evaluate_function`). -/
def firstSentinel (vs : List Value) : Option String :=
  vs.findSome? isSentinelStr

/-! `_evaluate_node` (with `_evaluate_function` inlined at the
`FunctionNode` case and `_evaluate_binary_op` split out as `evalBinary`).
`look` is the engine's `_get_cell_value`, which is total, so the
`try/except` handlers around cell and range lookups can only catch failures
of `_to_number`; for a cell reference that failure yields `#REF!`. -/
mutual

def evalNode (look : Int → Int → Value) : AST → Except Exc Value
  | .number v => .ok (.num v)
  | .strLit s => .ok (.str s)
  | .cellRef r c =>
    let value := look r c
    match value with
    | .str s =>
      if digitish s then
        match toNumber (.str s) with
        | .ok q => .ok (.num q)
        | .error _ => .ok (.str "#REF!")
      else .ok (.str s)
    | v => .ok v
  | .range cells =>
    .ok (.list ((cells.map (fun rc => look rc.1 rc.2)).filter notEmptyStr))
  | .binary op l r => do
    let lv ← evalNode look l
    let rv ← evalNode look r
    evalBinary op lv rv
  | .unary op x => do
    let v ← evalNode look x
    if op = "+" then do
      let a ← toNumber v
      return .num a
    else if op = "-" then do
      let a ← toNumber v
      return .num a.neg
    else return .str "#ERROR!"
  | .function name args =>
    if (pyUpper name) ∈ knownFunctions then do
      let vs ← evalArgs look args
      match firstSentinel vs with
      | some e => return .str e
      | none => applyFunction (pyUpper name) vs
    else .ok (.str "#NAME?")

def evalArgs (look : Int → Int → Value) : List AST → Except Exc (List Value)
  | [] => .ok []
  | a :: as => do
    let v ← evalNode look a
    let vs ← evalArgs look as
    return v :: vs

end

/-- `FormulaEvaluator.evaluate`: run the node and map each caught exception
class to its sentinel. -/
def evaluate (look : Int → Int → Value) (node : AST) : Value :=
  match evalNode look node with
  | .ok v => v
  | .error .zeroDiv => .str "#DIV/0!"
  | .error .valueError => .str "#VALUE!"
  | .error .otherError => .str "#ERROR!"

/-- `evaluate_formula(formula, get_cell_value)`: parse failures and every
other uncaught exception become `#ERROR!`. -/
def evaluate_formula (s : String) (look : Int → Int → Value) : Value :=
  match parse_formula s with
  | some ast => evaluate look ast
  | none => .str "#ERROR!"

/-! ### Cell and sheet model (`model.py`) -/

/-- JSON-ish values stored in a serialized cell dictionary: the four fields
written by `Cell.to_dict` plus arbitrary unknown keys. -/
inductive JVal where
  | null
  | num (q : PyFloat)
  | str (s : String)
  | bool (b : Bool)
  | vlist (vs : List Value)
  | dict (m : List (String × JVal))

/-- A spreadsheet cell: raw text, last computed value (`none` models
Python `None`), format dictionary, and optional error sentinel. -/
structure Cell where
  raw : String
  value : Option Value
  format : List (String × JVal)
  error : Option String

/-- `Cell()` with all defaults: `raw=""`, `value=""`, `format={}`,
`error=None`. -/
def Cell.default : Cell :=
  { raw := "", value := some (.str ""), format := [], error := none }

/-- `cell.is_formula()`. -/
def Cell.is_formula (c : Cell) : Bool :=
  c.raw.data.head? = some '='

/-- First-match association-list lookup (Python dict read). -/
def listGet {α : Type} (m : List ((Int × Int) × α)) (k : Int × Int) : Option α :=
  (m.find? (fun e => e.1 == k)).map (fun e => e.2)

/-- In-place update or append (Python dict write preserves insertion
order and replaces an existing key in place). -/
def listSet {α : Type} : List ((Int × Int) × α) → (Int × Int) → α → List ((Int × Int) × α)
  | [], k, v => [(k, v)]
  | (k1, v1) :: t, k, v =>
    if k1 = k then (k, v) :: t else (k1, v1) :: listSet t k v

/-- Python `del d[k]`. -/
def listErase {α : Type} (m : List ((Int × Int) × α)) (k : Int × Int) : List ((Int × Int) × α) :=
  m.filter (fun e => e.1 != k)

/-- The sheet: sparse insertion-ordered cell store plus name and cached
bounds. -/
structure Sheet where
  cells : List ((Int × Int) × Cell)
  name : String
  max_row : Int
  max_col : Int

/-- `Sheet()`. -/
def Sheet.empty : Sheet :=
  { cells := [], name := "Sheet1", max_row := 0, max_col := 0 }

/-- `Sheet.get_cell(row, col)`: returns the stored cell, CREATING AND
INSERTING a default cell when the position is absent (the Python method
mutates `self.cells`); the returned sheet carries that insertion. -/
def Sheet.get_cell (s : Sheet) (row col : Int) : Cell × Sheet :=
  match listGet s.cells (row, col) with
  | some cell => (cell, s)
  | none =>
    (Cell.default, { s with cells := listSet s.cells (row, col) Cell.default })

/-- `Sheet.set_cell(row, col, raw, value=None, format_dict=None)`:
`Cell(raw, value if value is not None else raw, format_dict)`, then expand
the cached bounds. -/
def Sheet.set_cell (s : Sheet) (row col : Int) (raw : String)
    (value : Option Value) (fmt : Option (List (String × JVal))) : Sheet :=
  let cell : Cell :=
    { raw := raw
      value := some (match value with | some v => v | none => .str raw)
      format := fmt.getD []
      error := none }
  { s with
    cells := listSet s.cells (row, col) cell
    max_row := max s.max_row row
    max_col := max s.max_col col }

/-- `Sheet.delete_cell(row, col)`. -/
def Sheet.delete_cell (s : Sheet) (row col : Int) : Sheet :=
  { s with cells := listErase s.cells (row, col) }

/-! ### Serialization (`model.py`, `Cell.to_dict` / `Cell.from_dict`,
`SpreadsheetModel.to_dict` / `SpreadsheetModel.from_dict`) -/

/-- How a stored `cell.value` appears in the serialized dictionary. -/
def encodeValue : Option Value → JVal
  | none => .null
  | some (.num q) => .num q
  | some (.str s) => .str s
  | some (.bool b) => .bool b
  | some (.list vs) => .vlist vs

/-- `Cell.to_dict()`: exactly the four known keys, in source order. -/
def Cell.to_dict (c : Cell) : List (String × JVal) :=
  [("raw", .str c.raw),
   ("value", encodeValue c.value),
   ("format", .dict c.format),
   ("error", match c.error with | some e => .str e | none => .null)]

/-- First-match lookup in a string-keyed dictionary. -/
def dictGet (m : List (String × JVal)) (k : String) : Option JVal :=
  (m.find? (fun e => e.1 == k)).map (fun e => e.2)

/-- Decode a `value` field back into a stored cell value (inverse of
`encodeValue`; a `dict` here cannot arise from `Cell.to_dict` output and
falls back to the `data.get` default `""`). -/
def decodeValue : JVal → Option Value
  | .null => none
  | .num q => some (.num q)
  | .str s => some (.str s)
  | .bool b => some (.bool b)
  | .vlist vs => some (.list vs)
  | .dict _ => some (.str "")

/-- `Cell.from_dict(data)`: reads only the four known keys with the
source's `data.get` defaults (`raw` → `""`, `value` → `""`, `format` →
`{}`, `error` → `None`); every other key of `data` is ignored. -/
def Cell.from_dict (data : List (String × JVal)) : Cell :=
  { raw := match dictGet data "raw" with
      | some (.str s) => s
      | some _ => ""
      | none => ""
    value := match dictGet data "value" with
      | some j => decodeValue j
      | none => some (.str "")
    format := match dictGet data "format" with
      | some (.dict m) => m
      | some _ => []
      | none => []
    error := match dictGet data "error" with
      | some (.str e) => some e
      | some _ => none
      | none => none }

/-- The top-level dictionary written by `SpreadsheetModel.to_dict`, which
has exactly the keys `sheet_name`, `cells`, `max_row`, `max_col`. -/
structure SerializedModel where
  sheet_name : String
  cells : List (String × List (String × JVal))
  max_row : Int
  max_col : Int

/-- `SpreadsheetModel.to_dict()`: cell keys are rendered as
`f"{row},{col}"`. -/
def modelToDict (s : Sheet) : SerializedModel :=
  { sheet_name := s.name
    cells := s.cells.map (fun e =>
      (intRepr e.1.1 ++ "," ++ intRepr e.1.2, e.2.to_dict))
    max_row := s.max_row
    max_col := s.max_col }

/-- Python `pos_str.split(',')` on characters. -/
def splitOnChar (sep : Char) : List Char → List (List Char)
  | [] => [[]]
  | c :: rest =>
    let r := splitOnChar sep rest
    if c = sep then [] :: r
    else
      match r with
      | h :: t => (c :: h) :: t
      | [] => [[c]]

/-- Unpacking `map(int, parts)` into exactly a row and a column. -/
def pairKey : List (List Char) → Option (Int × Int)
  | [a, b] =>
    match pyIntOpt ⟨a⟩, pyIntOpt ⟨b⟩ with
    | some r, some c => some (r, c)
    | _, _ => none
  | _ => none

/-- `row, col = map(int, pos_str.split(','))`: fails (raises) unless the
key splits into exactly two integer literals. -/
def parsePosKey (s : String) : Option (Int × Int) :=
  pairKey (splitOnChar ',' s.data)

/-- One iteration of the `from_dict` cell loop: parse the position key and
store the decoded cell (a malformed key raises, modelled as `none`). -/
def fromDictStep (sh : Sheet) (entry : String × List (String × JVal)) : Option Sheet :=
  match parsePosKey entry.1 with
  | some (r, c) =>
    some { sh with cells := listSet sh.cells (r, c) (Cell.from_dict entry.2) }
  | none => none

/-- `SpreadsheetModel.from_dict(data)`: fresh sheet, then name and bounds,
then each cell record through `Cell.from_dict`. -/
def modelFromDict (d : SerializedModel) : Option Sheet :=
  d.cells.foldlM fromDictStep
    { cells := [], name := d.sheet_name, max_row := d.max_row, max_col := d.max_col }

/-! ### Dependency graph (`engine.py`, `DependencyGraph`) -/

/-- Positions `(row, col)`. -/
abbrev Pos := Int × Int

/-- The two `defaultdict(set)` edge maps plus the AST cache, function
backed with the defaultdict default `∅` / `None`.  Sets are duplicate-free
lists; set insertion appends, giving a fixed traversal order where Python
leaves the set order unspecified. -/
structure DepGraph where
  dependents : Pos → List Pos
  dependencies : Pos → List Pos
  ast_cache : Pos → Option AST

def DepGraph.empty : DepGraph :=
  { dependents := fun _ => [], dependencies := fun _ => [], ast_cache := fun _ => none }

/-- Python `set.add`. -/
def posInsert (l : List Pos) (p : Pos) : List Pos :=
  if p ∈ l then l else l ++ [p]

/-- `DependencyGraph.clear_dependencies(cell)`: discard `cell` from the
dependents of each of its dependencies, empty its dependency set, drop its
cached AST. -/
def clear_dependencies (g : DepGraph) (cell : Pos) : DepGraph :=
  let deps := g.dependencies cell
  { dependents := fun d =>
      if d ∈ deps then (g.dependents d).filter (fun q => q != cell)
      else g.dependents d
    dependencies := fun d => if d = cell then [] else g.dependencies d
    ast_cache := fun d => if d = cell then none else g.ast_cache d }

/-- `DependencyGraph.add_dependency(dependent, dependency)`. -/
def add_dependency (g : DepGraph) (dependent dependency : Pos) : DepGraph :=
  { dependents := fun d =>
      if d = dependency then posInsert (g.dependents d) dependent
      else g.dependents d
    dependencies := fun d =>
      if d = dependent then posInsert (g.dependencies d) dependency
      else g.dependencies d
    ast_cache := g.ast_cache }

/-- `path[path.index(cell):]`: the path from the first occurrence of
`cell` onward. -/
def sliceFrom : List Pos → Pos → List Pos
  | [], _ => []
  | p :: t, cell => if p = cell then p :: t else sliceFrom t cell

/-! `DependencyGraph.find_cycles(start_cell)`: depth-first search over the
DEPENDENT direction.  `rec_stack` always holds exactly the members of
`path`, so the in-stack test is modelled by membership in `path`; `visited`
persists across the whole search and is threaded through.  Each recursive
call spends one fuel unit; the search visits each node at most once, so any
fuel above the number of reachable cells is equivalent, and the engine
passes a constant that dominates every graph in this development. -/
mutual

def dfsVisit (g : DepGraph) : Nat → Pos → List Pos → List Pos →
    Option (List Pos) × List Pos
  | 0, _, visited, _ => (none, visited)
  | fuel + 1, cell, visited, path =>
    if cell ∈ path then (some (sliceFrom path cell), visited)
    else if cell ∈ visited then (none, visited)
    else dfsFold g fuel (g.dependents cell) (visited ++ [cell]) (path ++ [cell])

def dfsFold (g : DepGraph) : Nat → List Pos → List Pos → List Pos →
    Option (List Pos) × List Pos
  | _, [], visited, _ => (none, visited)
  | 0, _ :: _, visited, _ => (none, visited)
  | fuel + 1, d :: ds, visited, path =>
    match dfsVisit g fuel d visited path with
    | (some cycle, visited1) => (some cycle, visited1)
    | (none, visited1) => dfsFold g fuel ds visited1 path

end

/-- The DFS fuel constant used by the engine; far above the number of
cells any verified computation touches. -/
def dfsFuel : Nat := 1000000

/-- `find_cycles(start_cell)`: `dfs(start_cell) or []`. -/
def find_cycles (g : DepGraph) (start_cell : Pos) : List Pos :=
  match dfsVisit g dfsFuel start_cell [] [] with
  | (some cycle, _) => cycle
  | (none, _) => []

/-- The in-degree build of `topological_sort`: for each cell of the set,
one increment per dependency that is also in the set. -/
def buildInDegree (g : DepGraph) (cells : List Pos) : Pos → Int :=
  cells.foldl (fun ind cell =>
    (g.dependencies cell).foldl (fun ind2 dep =>
      if dep ∈ cells then
        fun p => if p = cell then ind2 cell + 1 else ind2 p
      else ind2) ind) (fun _ => 0)

/-- Kahn's queue loop: pop the front, append to the result, decrement the
in-degree of each in-set dependent, enqueueing those that reach zero.  Each
iteration pops one queued cell and each cell is enqueued at most twice
(once initially, once when its strictly decreasing in-degree first hits 0),
so `2 * |cells| + 2` fuel always suffices. -/
def kahnLoop (g : DepGraph) (cells : List Pos) :
    Nat → (Pos → Int) → List Pos → List Pos → List Pos
  | 0, _, _, result => result
  | fuel + 1, ind, queue, result =>
    match queue with
    | [] => result
    | cell :: qrest =>
      let step := (g.dependents cell).foldl
        (fun (acc : (Pos → Int) × List Pos) dependent =>
          if dependent ∈ cells then
            let ind2 : Pos → Int :=
              fun p => if p = dependent then acc.1 dependent - 1 else acc.1 p
            if ind2 dependent = 0 then (ind2, acc.2 ++ [dependent])
            else (ind2, acc.2)
          else acc) (ind, qrest)
      kahnLoop g cells fuel step.1 step.2 (result ++ [cell])

/-- `DependencyGraph.topological_sort(cells)`. -/
def topological_sort (g : DepGraph) (cells : List Pos) : List Pos :=
  let ind := buildInDegree g cells
  let queue := cells.filter (fun c => ind c == 0)
  kahnLoop g cells (2 * cells.length + 2) ind queue []

/-! `DependencyGraph.extract_dependencies_from_ast`: collect every cell
reference and every cell of every range into a set, in visit order. -/
mutual

def extractDeps : AST → List Pos → List Pos
  | .cellRef r c, acc => posInsert acc (r, c)
  | .range cells, acc => cells.foldl posInsert acc
  | .binary _ l r, acc => extractDeps r (extractDeps l acc)
  | .unary _ x, acc => extractDeps x acc
  | .function _ args, acc => extractDepsList args acc
  | .number _, acc => acc
  | .strLit _, acc => acc

def extractDepsList : List AST → List Pos → List Pos
  | [], acc => acc
  | a :: as, acc => extractDepsList as (extractDeps a acc)

end

/-- `extract_dependencies_from_ast(ast)`. -/
def extract_dependencies_from_ast (ast : AST) : List Pos :=
  extractDeps ast []

/-! ### Calculation engine (`engine.py`, `CalculationEngine`) -/

/-- Engine state: the model sheet, the dependency graph, the dirty set
and the re-entrancy flag. -/
structure EngState where
  sheet : Sheet
  graph : DepGraph
  dirty : List Pos
  calculating : Bool

def EngState.init : EngState :=
  { sheet := Sheet.empty, graph := DepGraph.empty, dirty := [], calculating := false }

/-- `CalculationEngine._get_cell_value(row, col)`: absent cells and `None`
values read as `""`. -/
def sheetLookup (sh : Sheet) (row col : Int) : Value :=
  match listGet sh.cells (row, col) with
  | none => .str ""
  | some cell =>
    match cell.value with
    | some v => v
    | none => .str ""

/-- `CalculationEngine._calculate_cell(cell_pos)`: fetch (and possibly
lazily create) the cell, clear its error, then either coerce a literal or
evaluate the cached AST, installing value and error. -/
def calc_cell (s : EngState) (pos : Pos) : EngState :=
  let got := s.sheet.get_cell pos.1 pos.2
  let cell := got.1
  let sheet1 := got.2
  if !cell.is_formula then
    let newval : Value :=
      if digitish cell.raw then
        match pyFloatOpt cell.raw with
        | some q => .num q
        | none => .str cell.raw
      else .str cell.raw
    let cell1 := { cell with value := some newval, error := none }
    { s with sheet := { sheet1 with cells := listSet sheet1.cells pos cell1 } }
  else
    match s.graph.ast_cache pos with
    | some ast =>
      let result := evaluate (sheetLookup sheet1) ast
      let err : Option String :=
        match result with
        | .str t => if t.data.head? = some '#' then some t else none
        | _ => none
      let cell1 := { cell with value := some result, error := err }
      { s with sheet := { sheet1 with cells := listSet sheet1.cells pos cell1 } }
    | none =>
      let cell1 := { cell with value := some (.str "#ERROR!"), error := some "#ERROR!" }
      { s with sheet := { sheet1 with cells := listSet sheet1.cells pos cell1 } }

/-- The worklist of `mark_dirty`; Python pops an arbitrary set element, the
model pops the front.  Fuel is one unit per iteration; every iteration
either discards an already-marked entry or marks a new cell, and the engine
passes a constant dominating every reachable workload. -/
def markDirtyLoop (g : DepGraph) :
    Nat → List Pos → List Pos → List Pos → List Pos
  | 0, _, _, dirty => dirty
  | fuel + 1, to_mark, marked, dirty =>
    match to_mark with
    | [] => dirty
    | current :: rest =>
      if current ∈ marked then markDirtyLoop g fuel rest marked dirty
      else
        markDirtyLoop g fuel (rest ++ g.dependents current)
          (marked ++ [current]) (posInsert dirty current)

/-- `CalculationEngine.mark_dirty(cell)`: add the cell and its transitive
dependents to the dirty set. -/
def mark_dirty (s : EngState) (cell : Pos) : EngState :=
  { s with dirty := markDirtyLoop s.graph dfsFuel [cell] [] s.dirty }

/-- `CalculationEngine.recalculate()`: guarded by the `calculating` flag
and an empty dirty set; computes the dirty cells in topological order and
clears the dirty set. -/
def recalculate (s : EngState) : EngState :=
  if s.calculating || s.dirty.isEmpty then s
  else
    let s1 := { s with calculating := true }
    let order := topological_sort s1.graph s1.dirty
    let s2 := order.foldl calc_cell s1
    { s2 with dirty := [], calculating := false }

/-- `CalculationEngine.set_cell_formula(row, col, formula)`. -/
def set_cell_formula (s0 : EngState) (row col : Int) (formula : String) : EngState :=
  let pos : Pos := (row, col)
  let s := { s0 with graph := clear_dependencies s0.graph pos }
  if formula.data.head? = some '=' then
    match parse_formula formula with
    | none =>
      -- parse raised: install #ERROR! on the cell and return
      let got := s.sheet.get_cell row col
      let cell1 := { got.1 with value := some (.str "#ERROR!"), error := some "#ERROR!" }
      { s with sheet := { got.2 with cells := listSet got.2.cells pos cell1 } }
    | some ast =>
      let g1 := { s.graph with
        ast_cache := fun p => if p = pos then some ast else s.graph.ast_cache p }
      let deps := extract_dependencies_from_ast ast
      let g2 := deps.foldl (fun g d => add_dependency g pos d) g1
      let s1 := { s with graph := g2 }
      let cycles := find_cycles g2 pos
      if cycles.isEmpty then
        let s2 := mark_dirty s1 pos
        if !s2.calculating then recalculate s2 else s2
      else
        -- mark every cell of the returned cycle and return WITHOUT
        -- touching the graph or the dirty set
        let sheet2 := cycles.foldl (fun sh cpos =>
          let got := sh.get_cell cpos.1 cpos.2
          let cell1 := { got.1 with value := some (.str "#CYCLE!"), error := some "#CYCLE!" }
          { got.2 with cells := listSet got.2.cells cpos cell1 }) s1.sheet
        { s1 with sheet := sheet2 }
  else
    let s2 := mark_dirty s pos
    if !s2.calculating then recalculate s2 else s2

/-- A user edit of one cell: store the raw text
(`SpreadsheetModel.set_cell_raw`) and drive the engine
(`CalculationEngine.set_cell_formula`), the engine-level edit path that
`test_basic.py` exercises and §4.7 of the specification describes. -/
def userSetCell (s : EngState) (row col : Int) (raw : String) : EngState :=
  let s1 := { s with sheet := s.sheet.set_cell row col raw none none }
  set_cell_formula s1 row col raw

/-- A user deletion of one cell: remove it from the store
(`Sheet.delete_cell`) and drive the engine (`mark_dirty` plus
`recalculate`, the dirty-propagation path for a changed cell). -/
def userDeleteCell (s : EngState) (row col : Int) : EngState :=
  let s1 := { s with sheet := s.sheet.delete_cell row col }
  recalculate (mark_dirty s1 (row, col))

/-! ### Undo/redo log (`undo.py`, `UndoRedoManager`) -/

/-- A command over an abstract world `W`: `execute()` and `undo()` each
report success and may change the world.  (The concrete command classes
close over the model; the log in `UndoRedoManager` treats them purely
through this interface.) -/
structure Command (W : Type) where
  exec : W → Bool × W
  und : W → Bool × W

/-- The undo/redo log.  The top of each Python list-stack is its last
element; the model keeps the top at the HEAD, so Python `append`/`pop()`
become `cons`/head-match and `pop(0)` of the oldest entry becomes
`dropLast`. -/
structure UndoRedoManager (W : Type) where
  undo_stack : List (Command W)
  redo_stack : List (Command W)
  max_history : Nat

/-- `UndoRedoManager(max_history=100)`. -/
def UndoRedoManager.init (W : Type) : UndoRedoManager W :=
  { undo_stack := [], redo_stack := [], max_history := 100 }

/-- `execute_command(command)`: on success push to undo, discard the
oldest entry if the bound is exceeded, clear redo. -/
def execute_command {W : Type} (m : UndoRedoManager W) (cmd : Command W) (w : W) :
    Bool × UndoRedoManager W × W :=
  let r := cmd.exec w
  if r.1 then
    let u1 := cmd :: m.undo_stack
    let u2 := if u1.length > m.max_history then u1.dropLast else u1
    (true, { m with undo_stack := u2, redo_stack := [] }, r.2)
  else (false, m, r.2)

/-- `undo()`: pop, revert, push to redo; on a failing revert push the
command back onto the undo stack and report failure. -/
def UndoRedoManager.undo {W : Type} (m : UndoRedoManager W) (w : W) :
    Bool × UndoRedoManager W × W :=
  match m.undo_stack with
  | [] => (false, m, w)
  | cmd :: rest =>
    let r := cmd.und w
    if r.1 then
      (true, { m with undo_stack := rest, redo_stack := cmd :: m.redo_stack }, r.2)
    else
      (false, { m with undo_stack := cmd :: rest }, r.2)

/-- `redo()`: pop, re-execute, push back to undo; on failure push the
command back onto the redo stack. -/
def UndoRedoManager.redo {W : Type} (m : UndoRedoManager W) (w : W) :
    Bool × UndoRedoManager W × W :=
  match m.redo_stack with
  | [] => (false, m, w)
  | cmd :: rest =>
    let r := cmd.exec w
    if r.1 then
      (true, { m with undo_stack := cmd :: m.undo_stack, redo_stack := rest }, r.2)
    else
      (false, { m with redo_stack := cmd :: rest }, r.2)

/-! ### Definitions used by the claim statements -/

/-- The stored value of the cell at `p` (`none` when the position is
absent from the sparse store). -/
def cellValueAt (s : EngState) (p : Pos) : Option (Option Value) :=
  (listGet s.sheet.cells p).map Cell.value

/-- The stored error of the cell at `p`. -/
def cellErrorAt (s : EngState) (p : Pos) : Option (Option String) :=
  (listGet s.sheet.cells p).map Cell.error

/-- A1=`=B1`, B1=`=C1`, C1=`=A1`: the three-cycle scenario of §8.
A1 is `(0,0)`, B1 is `(0,1)`, C1 is `(0,2)`. -/
def cyc3 : EngState :=
  userSetCell (userSetCell (userSetCell EngState.init 0 0 "=B1") 0 1 "=C1") 0 2 "=A1"

/-- The three-cycle scenario after assigning the literal `7` to B1. -/
def cyc3fixB : EngState := userSetCell cyc3 0 1 "7"

/-- The three-cycle scenario after assigning the literal `7` to A1. -/
def cyc3fixA : EngState := userSetCell cyc3 0 0 "7"

/-- The three-cycle scenario after assigning the literal `7` to C1. -/
def cyc3fixC : EngState := userSetCell cyc3 0 2 "7"

/-- A1..A3 = 1, 2, 3 and D1=`=SUM(A1:A3)`: the SUM scenario of §8.
D1 is `(0,3)`. -/
def sumSetup : EngState :=
  userSetCell (userSetCell (userSetCell (userSetCell EngState.init 0 0 "1") 1 0 "2")
    2 0 "3") 0 3 "=SUM(A1:A3)"

/-- The SUM scenario after changing A2 to `10`. -/
def sumAfterChange : EngState := userSetCell sumSetup 1 0 "10"

/-- The SUM scenario after deleting A1. -/
def sumAfterDelete : EngState := userDeleteCell sumAfterChange 0 0

/-- A cell-value lookup whose cell `(0,0)` holds the sentinel `#DIV/0!`. -/
def sentinelAtA1 : Int → Int → Value :=
  fun r c => if r = 0 ∧ c = 0 then .str "#DIV/0!" else .str ""

/-- `IF(1, 5, A1)`: a call with an error sentinel in the FALSE-branch
argument position (not in the condition). -/
def ifBranchSentinelAst : AST :=
  .function "IF" [.number (.ofNat 1), .number (.ofNat 5), .cellRef 0 0]

/-- A serialized cell record carrying one unknown key `custom` next to the
four known keys. -/
def exCellDict : List (String × JVal) :=
  [("raw", .str "x"), ("value", .str "x"), ("format", .dict []),
   ("error", .null), ("custom", .num (.ofInt 1))]

/-- Mutual consistency of the dependency maps: `d ∈ deps[c] ⇔ c ∈
dependents[d]`. -/
def GraphConsistent (g : DepGraph) : Prop :=
  ∀ c d : Pos, d ∈ g.dependencies c ↔ c ∈ g.dependents d

/-- The dependency-graph states reachable from the fresh graph through its
two mutating operations. -/
inductive ReachableGraph : DepGraph → Prop where
  | empty : ReachableGraph DepGraph.empty
  | clear (g : DepGraph) (c : Pos) :
      ReachableGraph g → ReachableGraph (clear_dependencies g c)
  | add (g : DepGraph) (a b : Pos) :
      ReachableGraph g → ReachableGraph (add_dependency g a b)

/-- The regex of the claim, `^[A-Z]+[1-9][0-9]*$`: uppercase letters, then
a nonzero digit, then digits, nothing else. -/
def specAddrOk (s : String) : Bool :=
  let ls := s.data.takeWhile Char.isUpper
  match s.data.drop ls.length with
  | [] => false
  | d :: t => ls ≠ [] && ('1' ≤ d && d ≤ '9') && t.all Char.isDigit

/-- What `parse_address` actually accepts, described on the raw input:
ASCII letters of either case, then a nonempty digit run, optionally
followed by one final newline. -/
def codeAddrCore (core : List Char) : Bool :=
  decide (core.takeWhile Char.isAlpha ≠ [])
    && decide (core.drop (core.takeWhile Char.isAlpha).length ≠ [])
    && (core.drop (core.takeWhile Char.isAlpha).length).all Char.isDigit

def codeAddrOk (s : String) : Bool :=
  codeAddrCore (if s.data.getLast? = some '\n' then s.data.dropLast else s.data)

/-! ### Claim theorems -/

/-- Writing a key and reading it back. -/
theorem listGet_listSet_self {α : Type} (m : List ((Int × Int) × α))
    (k : Int × Int) (v : α) : listGet (listSet m k v) k = some v := by
  induction m with
  | nil => simp [listSet, listGet]
  | cons e t ih =>
    by_cases h : e.1 = k
    · simp [listSet, h, listGet]
    · simpa [listSet, h, listGet, List.find?] using ih

/-- C1: setting A1=`=B1`, B1=`=C1`, C1=`=A1` introduces a cycle; every
cell of the detected cycle gets error and value `#CYCLE!`; the dependency
graph is NOT cleared (all three edges survive); and afterwards assigning
any one of the three cells the non-formula `7` recomputes the other two to
7 with no stale error. -/
theorem c1_cycle_marks_all_and_any_break_recovers :
    cellErrorAt cyc3 (0, 0) = some (some "#CYCLE!")
    ∧ cellErrorAt cyc3 (0, 1) = some (some "#CYCLE!")
    ∧ cellErrorAt cyc3 (0, 2) = some (some "#CYCLE!")
    ∧ cellValueAt cyc3 (0, 0) = some (some (.str "#CYCLE!"))
    ∧ cellValueAt cyc3 (0, 1) = some (some (.str "#CYCLE!"))
    ∧ cellValueAt cyc3 (0, 2) = some (some (.str "#CYCLE!"))
    ∧ cyc3.graph.dependencies (0, 0) = [(0, 1)]
    ∧ cyc3.graph.dependencies (0, 1) = [(0, 2)]
    ∧ cyc3.graph.dependencies (0, 2) = [(0, 0)]
    ∧ cellValueAt cyc3fixB (0, 0) = some (some (.num (.ofNat 7)))
    ∧ cellValueAt cyc3fixB (0, 1) = some (some (.num (.ofNat 7)))
    ∧ cellValueAt cyc3fixB (0, 2) = some (some (.num (.ofNat 7)))
    ∧ cellErrorAt cyc3fixB (0, 0) = some none
    ∧ cellErrorAt cyc3fixB (0, 1) = some none
    ∧ cellErrorAt cyc3fixB (0, 2) = some none
    ∧ cellValueAt cyc3fixA (0, 1) = some (some (.num (.ofNat 7)))
    ∧ cellValueAt cyc3fixA (0, 2) = some (some (.num (.ofNat 7)))
    ∧ cellErrorAt cyc3fixA (0, 1) = some none
    ∧ cellErrorAt cyc3fixA (0, 2) = some none
    ∧ cellValueAt cyc3fixC (0, 0) = some (some (.num (.ofNat 7)))
    ∧ cellValueAt cyc3fixC (0, 1) = some (some (.num (.ofNat 7)))
    ∧ cellErrorAt cyc3fixC (0, 0) = some none
    ∧ cellErrorAt cyc3fixC (0, 1) = some none :=
  ⟨rfl, rfl, rfl, rfl, rfl, rfl, rfl, rfl, rfl, rfl, rfl, rfl, rfl, rfl,
   rfl, rfl, rfl, rfl, rfl, rfl, rfl, rfl, rfl⟩

/-- C3 (counterexample): with `(0,0)` holding the sentinel `#DIV/0!`,
evaluating `IF(1, 5, A1)` returns the sentinel from the FALSE-branch
argument, not the selected branch value `5` — so IF does NOT restrict
error propagation to its condition position. -/
theorem c3_if_branch_sentinel_propagates :
    evalNode sentinelAtA1 ifBranchSentinelAst = .ok (.str "#DIV/0!")
    ∧ (Except.ok (Value.str "#DIV/0!") : Except Exc Value) ≠ .ok (.num (.ofNat 5)) :=
  ⟨rfl, by simp⟩

/-- C3 (amended): for EVERY function of the dispatch table, IF included,
once the arguments evaluate without raising, the first error sentinel in
argument order is returned as the result of the call. -/
theorem c3_first_arg_sentinel_is_result (look : Int → Int → Value)
    (name : String) (args : List AST) (vs : List Value) (e : String)
    (hknown : pyUpper name ∈ knownFunctions)
    (hargs : evalArgs look args = .ok vs)
    (hfirst : firstSentinel vs = some e) :
    evalNode look (.function name args) = .ok (.str e) := by
  unfold evalNode
  rw [if_pos hknown, hargs]
  show (match firstSentinel vs with
    | some e => (pure (Value.str e) : Except Exc Value)
    | none => applyFunction (pyUpper name) vs) = .ok (.str e)
  rw [hfirst]
  rfl

/-- C3 (witness). -/
theorem c3_first_arg_sentinel_is_result_wit :
    evalNode sentinelAtA1 ifBranchSentinelAst = .ok (.str "#DIV/0!") :=
  c3_first_arg_sentinel_is_result sentinelAtA1 "IF"
    [.number (.ofNat 1), .number (.ofNat 5), .cellRef 0 0]
    [.num (.ofNat 1), .num (.ofNat 5), .str "#DIV/0!"] "#DIV/0!"
    (by decide) rfl rfl

/-- C4 (counterexample): in the SUM scenario, after deleting A1 the
value of D1 is 13 (the window reads 0 + 10 + 3), not the 12 the claim
states. -/
theorem c4_sum_after_delete_is_13_not_12 :
    cellValueAt sumAfterDelete (0, 3) = some (some (.num (.ofNat 13)))
    ∧ PyFloat.ofNat 13 ≠ PyFloat.ofNat 12
    ∧ (PyFloat.ofNat 13).eqv (PyFloat.ofNat 12) = false :=
  ⟨rfl, by decide, by decide⟩

/-- C4 (amended): A1..A3 = 1,2,3 with D1=`=SUM(A1:A3)` gives D1 = 6;
changing A2 to 10 gives D1 = 14; deleting A1 gives D1 = 13, the range
still reading the (now empty) A1:A3 window as 0 + 10 + 3. -/
theorem c4_sum_scenario :
    cellValueAt sumSetup (0, 3) = some (some (.num (.ofNat 6)))
    ∧ cellValueAt sumAfterChange (0, 3) = some (some (.num (.ofNat 14)))
    ∧ cellValueAt sumAfterDelete (0, 3) = some (some (.num (.ofNat 13))) :=
  ⟨rfl, rfl, rfl⟩

/-- C5: the undo/redo log keeps at most 100 commands (`execute_command`
pushes and then drops the oldest entry exactly when the bound is
exceeded, so the new stack is `take 100` of the pushed stack and stays
within the bound); every successful execute clears the redo stack; a
failed execute changes nothing; and a failing `revert()` during `undo`
re-pushes the command, leaving both stacks exactly as before with `false`
returned. -/
theorem c5_undo_log_bound_and_failed_revert {W : Type}
    (m : UndoRedoManager W) (cmd c : Command W) (w wx wu : W) (b : Bool)
    (rest : List (Command W))
    (hmax : m.max_history = 100)
    (hlen : m.undo_stack.length ≤ 100)
    (hexec : cmd.exec w = (b, wx))
    (hstack : m.undo_stack = c :: rest)
    (hund : c.und w = (false, wu)) :
    (execute_command m cmd w =
      if b then
        (true, { m with undo_stack := (cmd :: m.undo_stack).take 100, redo_stack := [] }, wx)
      else (false, m, wx))
    ∧ (execute_command m cmd w).2.1.undo_stack.length ≤ 100
    ∧ m.undo w = (false, m, wu) := by
  have hstep : execute_command m cmd w =
      if b then
        (true, { m with undo_stack := (cmd :: m.undo_stack).take 100, redo_stack := [] }, wx)
      else (false, m, wx) := by
    unfold execute_command
    rw [hexec]
    cases b with
    | false => rfl
    | true =>
      simp only [if_true, hmax]
      rcases Nat.lt_or_ge m.undo_stack.length 100 with hlt | hge
      · rw [if_neg (by simp; omega), List.take_of_length_le (by simp; omega)]
      · have h100 : m.undo_stack.length = 100 := Nat.le_antisymm hlen hge
        rw [if_pos (by simp [h100]), List.dropLast_eq_take]
        simp [h100]
  refine ⟨hstep, ?_, ?_⟩
  · rw [hstep]
    cases b with
    | false => simpa using hlen
    | true =>
      simp only [if_true]
      exact List.length_take_le 100 (cmd :: m.undo_stack)
  · show UndoRedoManager.undo m w = (false, m, wu)
    unfold UndoRedoManager.undo
    rw [hstack]
    simp only [hund]
    exact congrArg (fun u => (false, { m with undo_stack := u }, wu)) hstack.symm

/-- C5 (witness). -/
theorem c5_undo_log_bound_and_failed_revert_wit :
    let cGood : Command Int := ⟨fun w => (true, w + 1), fun w => (true, w - 1)⟩
    let cBad : Command Int := ⟨fun w => (true, w), fun w => (false, w)⟩
    let m : UndoRedoManager Int := ⟨[cBad], [], 100⟩
    (execute_command m cGood 0 =
      if true then
        (true, { m with undo_stack := (cGood :: m.undo_stack).take 100, redo_stack := [] }, 1)
      else (false, m, 1))
    ∧ (execute_command m cGood 0).2.1.undo_stack.length ≤ 100
    ∧ m.undo 0 = (false, m, 0) :=
  c5_undo_log_bound_and_failed_revert _ _ _ 0 1 0 true [] rfl (by decide) rfl rfl rfl

/-- C8 (counterexample): reading the absent cell `(0,0)` of a fresh sheet
with `get_cell` INSERTS a default cell, so the read changes presence in
the sparse store and afterwards a cell with `raw = ""` is present —
contradicting both halves of the claim. -/
theorem c8_get_cell_inserts :
    listGet Sheet.empty.cells (0, 0) = none
    ∧ (Sheet.empty.get_cell 0 0).2.cells = [((0, 0), Cell.default)]
    ∧ Cell.default.raw = "" :=
  ⟨rfl, rfl, rfl⟩

/-- C8 (amended): `get_cell` returns the stored cell when the address is
present, leaving the sheet unchanged; when it is absent it returns the
default-empty cell (raw `""`) and inserts it, so after any `get_cell` the
address is present and maps to the returned cell. -/
theorem c8_get_cell_behaviour (s : Sheet) (row col : Int) :
    listGet (s.get_cell row col).2.cells (row, col) = some (s.get_cell row col).1
    ∧ (listGet s.cells (row, col) = none →
        (s.get_cell row col).1 = Cell.default)
    ∧ (∀ x, listGet s.cells (row, col) = some x →
        s.get_cell row col = (x, s)) := by
  cases hx : listGet s.cells (row, col) with
  | some cell =>
    have hget : s.get_cell row col = (cell, s) := by
      unfold Sheet.get_cell
      rw [hx]
    refine ⟨?_, fun h => absurd h (by simp), fun x h => ?_⟩
    · rw [hget]
      exact hx
    · rw [hget, Option.some.inj h]
  | none =>
    have hget : s.get_cell row col =
        (Cell.default, { s with cells := listSet s.cells (row, col) Cell.default }) := by
      unfold Sheet.get_cell
      rw [hx]
    refine ⟨?_, fun _ => ?_, fun x h => absurd h (by simp)⟩
    · rw [hget]
      exact listGet_listSet_self s.cells (row, col) Cell.default
    · rw [hget]

/-- C8 (witness). -/
theorem c8_get_cell_behaviour_wit :
    listGet ((Sheet.empty.get_cell 0 0).2.get_cell 0 0).2.cells (0, 0)
      = some ((Sheet.empty.get_cell 0 0).2.get_cell 0 0).1 :=
  (c8_get_cell_behaviour (Sheet.empty.get_cell 0 0).2 0 0).1

/-- C9 (counterexample): the formula `=1@1` contains the unrecognized
character `@`, yet it evaluates to the number 1, not the `#ERROR!` the
claim requires. -/
theorem c9_unknown_char_no_error :
    evaluate_formula "=1@1" (fun _ _ => .str "") = .num (.ofNat 1)
    ∧ Value.num (.ofNat 1) ≠ Value.str "#ERROR!" :=
  ⟨rfl, by simp⟩

/-- C9 (amended): the tokenizer silently SKIPS a character that no lexer
branch recognizes (neither whitespace, digit, dot, quote, letter,
operator, parenthesis nor comma): one loop iteration consumes it and
produces no token and no error. -/
theorem c9_unknown_char_skipped (fuel : Nat) (c : Char) (cs : List Char)
    (hws : c.isWhitespace = false) (hd : c.isDigit = false) (hdot : c ≠ '.')
    (hq : c ≠ '"') (ha : c.isAlpha = false) (hop : isOpChar c = false)
    (hl : c ≠ '(') (hr : c ≠ ')') (hc : c ≠ ',') :
    tokLoop (fuel + 1) (c :: cs) = tokLoop fuel cs := by
  show (match (c :: cs).dropWhile Char.isWhitespace with
    | [] => [⟨.eof, ""⟩]
    | c :: rest => _) = tokLoop fuel cs
  rw [List.dropWhile_cons_of_neg (by simp [hws])]
  simp [hd, hdot, hq, ha, hop, hl, hr, hc]

/-- C9 (witness). -/
theorem c9_unknown_char_skipped_wit :
    tokLoop 1 ['@'] = tokLoop 0 [] :=
  c9_unknown_char_skipped 0 '@' [] (by decide) (by decide) (by decide)
    (by decide) (by decide) (by decide) (by decide) (by decide) (by decide)

/-- C10 (counterexample): round-tripping a serialized cell record through
`Cell.from_dict` and `Cell.to_dict` DROPS the unknown key `custom` (the
result has only the four known keys), so unknown keys inside a cell are
not preserved. -/
theorem c10_unknown_cell_key_dropped :
    dictGet (Cell.from_dict exCellDict).to_dict "custom" = none
    ∧ dictGet exCellDict "custom" = some (.num (.ofInt 1))
    ∧ (Cell.from_dict exCellDict).to_dict ≠ exCellDict :=
  ⟨rfl, rfl, fun h => absurd (congrArg List.length h) (by decide)⟩

/-- Membership after a set insertion. -/
theorem mem_posInsert {l : List Pos} {p q : Pos} :
    p ∈ posInsert l q ↔ p ∈ l ∨ p = q := by
  unfold posInsert
  by_cases h : q ∈ l
  · simp only [if_pos h]
    constructor
    · exact Or.inl
    · rintro (hp | rfl)
      · exact hp
      · exact h
  · simp [if_neg h, List.mem_append]

/-- C2: every dependency-graph state reachable through
`clear_dependencies` and `add_dependency` keeps the two edge maps mutually
consistent: `d ∈ deps[c] ⇔ c ∈ dependents[d]`. -/
theorem c2_dependency_maps_consistent (g : DepGraph) (h : ReachableGraph g) :
    GraphConsistent g := by
  induction h with
  | empty => intro c d; simp [DepGraph.empty]
  | clear g0 cell _ ih =>
    intro c d
    simp only [clear_dependencies]
    split_ifs with hc hd hd
    · subst hc
      simp [List.mem_filter]
    · subst hc
      simp only [List.not_mem_nil, false_iff]
      exact fun hmem => hd ((ih c d).mpr hmem)
    · rw [ih c d]
      simp [List.mem_filter, bne_iff_ne, hc]
    · exact ih c d
  | add g0 a b _ ih =>
    intro c d
    simp only [add_dependency]
    split_ifs with hc hd hd
    · subst hc
      subst hd
      simp [mem_posInsert]
    · subst hc
      simpa [mem_posInsert, hd] using ih c d
    · subst hd
      simpa [mem_posInsert, hc] using ih c d
    · exact ih c d

/-- C2 (witness). -/
theorem c2_dependency_maps_consistent_wit :
    GraphConsistent (add_dependency (clear_dependencies DepGraph.empty (0, 0)) (0, 0) (0, 1)) :=
  c2_dependency_maps_consistent _
    (ReachableGraph.add _ _ _ (ReachableGraph.clear _ _ ReachableGraph.empty))

/-! Character-level bridge lemmas: the codec proofs reason about
`Char.ofNat` images and the ASCII class predicates through `Char.toNat`. -/

/-- `Char.ofNat` below the surrogate range keeps its code point. -/
theorem char_toNat_ofNat {n : Nat} (h : n < 55296) : (Char.ofNat n).toNat = n := by
  unfold Char.ofNat
  rw [dif_pos (Or.inl h)]
  rfl

/-- Characters with equal code points are equal. -/
theorem char_eq_of_toNat {c d : Char} (h : c.toNat = d.toNat) : c = d :=
  Char.ext (UInt32.ext h)

/-- `isUpper` through code points. -/
theorem char_isUpper_iff {c : Char} :
    c.isUpper = true ↔ 65 ≤ c.toNat ∧ c.toNat ≤ 90 := by
  unfold Char.isUpper
  rw [Bool.and_eq_true, decide_eq_true_iff, decide_eq_true_iff]
  rw [show ((c.val ≥ 65) ↔ 65 ≤ c.toNat) from Iff.rfl]
  rw [show ((c.val ≤ 90) ↔ c.toNat ≤ 90) from Iff.rfl]

/-- `isLower` through code points. -/
theorem char_isLower_iff {c : Char} :
    c.isLower = true ↔ 97 ≤ c.toNat ∧ c.toNat ≤ 122 := by
  unfold Char.isLower
  rw [Bool.and_eq_true, decide_eq_true_iff, decide_eq_true_iff]
  rw [show ((c.val ≥ 97) ↔ 97 ≤ c.toNat) from Iff.rfl]
  rw [show ((c.val ≤ 122) ↔ c.toNat ≤ 122) from Iff.rfl]

/-- `isDigit` through code points. -/
theorem char_isDigit_iff {c : Char} :
    c.isDigit = true ↔ 48 ≤ c.toNat ∧ c.toNat ≤ 57 := by
  unfold Char.isDigit
  rw [Bool.and_eq_true, decide_eq_true_iff, decide_eq_true_iff]
  rw [show ((c.val ≥ 48) ↔ 48 ≤ c.toNat) from Iff.rfl]
  rw [show ((c.val ≤ 57) ↔ c.toNat ≤ 57) from Iff.rfl]

/-- The condition inside `pyUpperChar` through code points. -/
theorem pyUpperChar_cond_iff {c : Char} :
    ('a' ≤ c ∧ c ≤ 'z') ↔ 97 ≤ c.toNat ∧ c.toNat ≤ 122 := by
  rw [show (('a' ≤ c) ↔ 97 ≤ c.toNat) from Iff.rfl]
  rw [show ((c ≤ 'z') ↔ c.toNat ≤ 122) from Iff.rfl]

/-- Characters below `'a'` are fixed by `upper()`. -/
theorem pyUpperChar_of_lt {c : Char} (h : c.toNat < 97) : pyUpperChar c = c := by
  unfold pyUpperChar
  rw [if_neg (fun hc => absurd (pyUpperChar_cond_iff.mp hc).1 (by omega))]

/-- `upper()` on a lowercase ASCII letter subtracts 32 from the code
point. -/
theorem pyUpperChar_toNat_of_lower {c : Char}
    (h : 97 ≤ c.toNat ∧ c.toNat ≤ 122) : (pyUpperChar c).toNat = c.toNat - 32 := by
  unfold pyUpperChar
  rw [if_pos (pyUpperChar_cond_iff.mpr h), char_toNat_ofNat (by omega)]

/-- All characters emitted by the column-letter loop are `A`..`Z`. -/
theorem colToLetterAux_mem_range {fuel col : Nat} {c : Char}
    (h : c ∈ colToLetterAux fuel col) : 65 ≤ c.toNat ∧ c.toNat ≤ 90 := by
  induction fuel generalizing col with
  | zero => simp [colToLetterAux] at h
  | succ f ih =>
    have hchar : (Char.ofNat (65 + col % 26)).toNat = 65 + col % 26 :=
      char_toNat_ofNat (by have := Nat.mod_lt col (show 0 < 26 by decide); omega)
    unfold colToLetterAux at h
    by_cases hc : col < 26
    · rw [if_pos hc, List.mem_singleton] at h
      subst h
      rw [hchar]
      have := Nat.mod_lt col (show 0 < 26 by decide)
      omega
    · rw [if_neg hc, List.mem_append, List.mem_singleton] at h
      rcases h with h | h
      · exact ih h
      · subst h
        rw [hchar]
        have := Nat.mod_lt col (show 0 < 26 by decide)
        omega

/-- `upper()` fixes any character list whose code points sit below 97. -/
theorem map_pyUpperChar_of_lt {l : List Char} (h : ∀ c ∈ l, c.toNat < 97) :
    l.map pyUpperChar = l := by
  have : l.map pyUpperChar = l.map id :=
    List.map_eq_map_iff.mpr (fun c hc => pyUpperChar_of_lt (h c hc))
  simpa using this

/-- Folding `letter_to_col` over a final character. -/
theorem letterVal_append_singleton (xs : List Char) (c : Char) :
    letterVal (xs ++ [c]) = letterVal xs * 26 + ((c.toNat : Int) - 64) := by
  unfold letterVal
  rw [List.foldl_append]
  rfl

/-- The column-letter loop followed by the `letter_to_col` fold recovers
`col + 1`. -/
theorem letterVal_colToLetterAux {fuel col : Nat} (h : col < fuel) :
    letterVal (colToLetterAux fuel col) = (col : Int) + 1 := by
  induction fuel generalizing col with
  | zero => omega
  | succ f ih =>
    have hmod := Nat.mod_lt col (show 0 < 26 by decide)
    have hchar : (Char.ofNat (65 + col % 26)).toNat = 65 + col % 26 :=
      char_toNat_ofNat (by omega)
    unfold colToLetterAux
    by_cases hc : col < 26
    · rw [if_pos hc]
      have : letterVal [Char.ofNat (65 + col % 26)] =
          ((65 + col % 26 : Nat) : Int) - 64 := by
        unfold letterVal
        simp [hchar]
      rw [this, Nat.mod_eq_of_lt hc]
      push_cast
      omega
    · rw [if_neg hc, letterVal_append_singleton]
      have hdiv : 0 < col / 26 := Nat.div_pos (by omega) (by decide)
      have hlt : col / 26 < col := Nat.div_lt_self (by omega) (by decide)
      rw [ih (show col / 26 - 1 < f by omega)]
      rw [hchar]
      have hdm := Nat.div_add_mod col 26
      push_cast
      omega

/-- The fuel argument of the column-letter loop is irrelevant above the
iteration count. -/
theorem colToLetterAux_fuel_irrel : ∀ (f1 f2 col : Nat), col < f1 → col < f2 →
    colToLetterAux f1 col = colToLetterAux f2 col := by
  intro f1
  induction f1 with
  | zero => intro f2 col h1 _; omega
  | succ f ih =>
    intro f2 col h1 h2
    cases f2 with
    | zero => omega
    | succ g =>
      unfold colToLetterAux
      by_cases hc : col < 26
      · rw [if_pos hc, if_pos hc]
      · rw [if_neg hc, if_neg hc]
        have hlt : col / 26 < col := Nat.div_lt_self (by omega) (by decide)
        have heq := ih g (col / 26 - 1) (by omega) (by omega)
        rw [heq]

/-- The `letter_to_col` fold stays nonnegative over `@`-or-above
characters. -/
theorem letterVal_fold_nonneg (cs : List Char) (acc : Int) (hacc : 0 ≤ acc)
    (h : ∀ c ∈ cs, 64 ≤ c.toNat) :
    0 ≤ cs.foldl (fun acc c => acc * 26 + ((c.toNat : Int) - 64)) acc := by
  induction cs generalizing acc with
  | nil => exact hacc
  | cons c t ih =>
    have hc := h c (by simp)
    rw [List.foldl_cons]
    refine ih _ ?_ (fun x hx => h x (List.mem_cons_of_mem c hx))
    have hcI : (64 : Int) ≤ (c.toNat : Int) := by exact_mod_cast hc
    nlinarith

/-- The `letter_to_col` fold is at least 1 on a nonempty uppercase
string. -/
theorem letterVal_pos (cs : List Char) (hne : cs ≠ [])
    (h : ∀ c ∈ cs, c.isUpper = true) : 1 ≤ letterVal cs := by
  induction cs using List.reverseRecOn with
  | nil => exact absurd rfl hne
  | append_singleton t c _ =>
    have hc := char_isUpper_iff.mp (h c (by simp))
    rw [letterVal_append_singleton]
    have ht : 0 ≤ letterVal t :=
      letterVal_fold_nonneg t 0 le_rfl
        (fun x hx => by
          have := char_isUpper_iff.mp (h x (by simp [hx]))
          omega)
    have hcI : (65 : Int) ≤ (c.toNat : Int) := by exact_mod_cast hc.1
    nlinarith

/-- Every nonempty uppercase string is recovered by the column-letter
loop from its `letter_to_col` fold value. -/
theorem colToLetterAux_letterVal_inv (cs : List Char) (hne : cs ≠ [])
    (hup : ∀ c ∈ cs, c.isUpper = true) :
    colToLetterAux (letterVal cs).toNat ((letterVal cs).toNat - 1) = cs := by
  induction cs using List.reverseRecOn with
  | nil => exact absurd rfl hne
  | append_singleton t c ih =>
    have hc : 65 ≤ c.toNat ∧ c.toNat ≤ 90 := char_isUpper_iff.mp (hup c (by simp))
    have hupt : ∀ x ∈ t, x.isUpper = true := fun x hx => hup x (by simp [hx])
    rw [letterVal_append_singleton]
    rcases eq_or_ne t [] with rfl | htne
    · have h0 : letterVal ([] : List Char) = 0 := rfl
      rw [h0]
      have hvN : ((0 : Int) * 26 + ((c.toNat : Int) - 64)).toNat = c.toNat - 64 := by
        omega
      rw [hvN]
      obtain ⟨k, hk⟩ : ∃ k, c.toNat - 64 = k + 1 := ⟨c.toNat - 65, by omega⟩
      rw [hk]
      unfold colToLetterAux
      rw [if_pos (by omega)]
      rw [List.nil_append]
      have : 65 + (k + 1 - 1) % 26 = c.toNat := by omega
      rw [show (k + 1 - 1) = k from rfl, Nat.mod_eq_of_lt (by omega)]
      rw [show (65 + k) = c.toNat from by omega, Char.ofNat_toNat]
    · have hVt0 : 0 ≤ letterVal t :=
        letterVal_fold_nonneg t 0 le_rfl
          (fun x hx => by have := char_isUpper_iff.mp (hupt x hx); omega)
      have hVt1 : 1 ≤ letterVal t := letterVal_pos t htne hupt
      have hVtc : letterVal t = ((letterVal t).toNat : Int) :=
        (Int.toNat_of_nonneg hVt0).symm
      set Vt : Nat := (letterVal t).toNat with hVtdef
      have hVN : (letterVal t * 26 + ((c.toNat : Int) - 64)).toNat
          = 26 * Vt + (c.toNat - 64) := by omega
      rw [hVN]
      obtain ⟨k, hk⟩ : ∃ k, 26 * Vt + (c.toNat - 64) = k + 1 :=
        ⟨26 * Vt + (c.toNat - 64) - 1, by omega⟩
      rw [hk]
      unfold colToLetterAux
      rw [if_neg (by omega)]
      have hcol : k + 1 - 1 = 26 * Vt + (c.toNat - 64) - 1 := by omega
      have hmod : (k + 1 - 1) % 26 = c.toNat - 65 := by omega
      have hdiv : (k + 1 - 1) / 26 - 1 = Vt - 1 := by omega
      rw [hmod, hdiv]
      rw [show (65 + (c.toNat - 65)) = c.toNat from by omega, Char.ofNat_toNat]
      have hfuel : colToLetterAux k (Vt - 1) = colToLetterAux Vt (Vt - 1) :=
        colToLetterAux_fuel_irrel k Vt (Vt - 1) (by omega) (by omega)
      rw [hfuel, ih htne hupt]

/-- The column-letter loop yields at least one character. -/
theorem colToLetterAux_ne_nil {fuel col : Nat} (h : col < fuel) :
    colToLetterAux fuel col ≠ [] := by
  cases fuel with
  | zero => omega
  | succ f =>
    unfold colToLetterAux
    by_cases hc : col < 26
    · rw [if_pos hc]
      simp
    · rw [if_neg hc]
      simp

/-- All characters of the decimal rendering are digits. -/
theorem natReprAux_mem_range {fuel n : Nat} {c : Char}
    (h : c ∈ natReprAux fuel n) : 48 ≤ c.toNat ∧ c.toNat ≤ 57 := by
  induction fuel generalizing n with
  | zero => simp [natReprAux] at h
  | succ f ih =>
    have hmod := Nat.mod_lt n (show 0 < 10 by decide)
    have hchar : (Char.ofNat (48 + n % 10)).toNat = 48 + n % 10 :=
      char_toNat_ofNat (by omega)
    unfold natReprAux at h
    by_cases hc : n < 10
    · rw [if_pos hc, List.mem_singleton] at h
      subst h
      omega
    · rw [if_neg hc, List.mem_append, List.mem_singleton] at h
      rcases h with h | h
      · exact ih h
      · subst h
        omega

/-- Folding the decimal value over a final digit. -/
theorem digitsToNat_append_singleton (xs : List Char) (c : Char) :
    digitsToNat (xs ++ [c]) = digitsToNat xs * 10 + (c.toNat - 48) := by
  unfold digitsToNat
  rw [List.foldl_append]
  rfl

/-- `int()` recovers the number rendered by the decimal loop. -/
theorem digitsToNat_natReprAux {fuel n : Nat} (h : n < fuel) :
    digitsToNat (natReprAux fuel n) = n := by
  induction fuel generalizing n with
  | zero => omega
  | succ f ih =>
    have hmod := Nat.mod_lt n (show 0 < 10 by decide)
    have hchar : (Char.ofNat (48 + n % 10)).toNat = 48 + n % 10 :=
      char_toNat_ofNat (by omega)
    unfold natReprAux
    by_cases hc : n < 10
    · rw [if_pos hc]
      show digitsToNat [Char.ofNat (48 + n % 10)] = n
      unfold digitsToNat
      simp [hchar]
      omega
    · rw [if_neg hc, digitsToNat_append_singleton]
      have hdiv : n / 10 < n := Nat.div_lt_self (by omega) (by decide)
      rw [ih (by omega), hchar]
      have := Nat.div_add_mod n 10
      omega

/-- The decimal rendering is nonempty. -/
theorem natReprAux_ne_nil {fuel n : Nat} (h : n < fuel) :
    natReprAux fuel n ≠ [] := by
  cases fuel with
  | zero => omega
  | succ f =>
    unfold natReprAux
    by_cases hc : n < 10
    · rw [if_pos hc]
      simp
    · rw [if_neg hc]
      simp

/-- The address regex on a clean letters-then-digits split matches with
exactly that split. -/
theorem reMatchAddr_split {L D : List Char} (hL : L ≠ [])
    (hLup : ∀ c ∈ L, c.isUpper = true) (hD : D ≠ [])
    (hDdig : ∀ c ∈ D, c.isDigit = true) :
    reMatchAddr (L ++ D) = some (L, D) := by
  unfold reMatchAddr
  have hlast : ¬((L ++ D).getLast? = some '\n') := by
    rw [List.getLast?_append_of_ne_nil L hD]
    intro heq
    have hmem : '\n' ∈ D := List.mem_of_mem_getLast? heq
    have := char_isDigit_iff.mp (hDdig _ hmem)
    revert this
    decide
  rw [if_neg hlast]
  unfold reMatchCore
  have htake : (L ++ D).takeWhile Char.isUpper = L := by
    rw [List.takeWhile_append_of_pos hLup]
    cases D with
    | nil => exact absurd rfl hD
    | cons d t =>
      rw [List.takeWhile_cons_of_neg, List.append_nil]
      have hd := char_isDigit_iff.mp (hDdig d (by simp))
      intro hu
      have := char_isUpper_iff.mp hu
      omega
  rw [htake, List.drop_left]
  rw [if_pos ⟨hL, hD, List.all_eq_true.mpr hDdig⟩]

/-- C6: the address codec round-trips in both directions:
`letter_to_col (col_to_letter n) = n` on every nonnegative column index,
`col_to_letter (letter_to_col s) = s` on every nonempty `A`..`Z` string,
and `parse_address (address_to_string r c) = (r, c)` on every nonnegative
coordinate pair. -/
theorem c6_address_codec_roundtrips (n r c : Nat) (s : String)
    (hne : s.data ≠ []) (hup : ∀ ch ∈ s.data, ch.isUpper = true) :
    letter_to_col (col_to_letter n) = (n : Int)
    ∧ col_to_letter (letter_to_col s).toNat = s
    ∧ parse_address (address_to_string r c) = some ((r : Int), (c : Int)) := by
  have hmapupper : ∀ col : Nat,
      (colToLetterAux (col + 1) col).map pyUpperChar = colToLetterAux (col + 1) col :=
    fun col => map_pyUpperChar_of_lt
      (fun ch hch => by have := colToLetterAux_mem_range hch; omega)
  have p1 : ∀ m : Nat, letter_to_col (col_to_letter m) = (m : Int) := by
    intro m
    show letterVal ((colToLetterAux (m + 1) m).map pyUpperChar) - 1 = (m : Int)
    rw [hmapupper m, letterVal_colToLetterAux (Nat.lt_succ_self m)]
    omega
  refine ⟨p1 n, ?_, ?_⟩
  · -- nonempty uppercase strings round-trip through the column index
    have hVpos : 1 ≤ letterVal s.data := letterVal_pos s.data hne hup
    have hmap : s.data.map pyUpperChar = s.data :=
      map_pyUpperChar_of_lt
        (fun ch hch => by have := char_isUpper_iff.mp (hup ch hch); omega)
    show col_to_letter (letterVal (s.data.map pyUpperChar) - 1).toNat = s
    rw [hmap]
    show String.mk (colToLetterAux ((letterVal s.data - 1).toNat + 1)
      (letterVal s.data - 1).toNat) = s
    have h1 : (letterVal s.data - 1).toNat + 1 = (letterVal s.data).toNat := by omega
    have h2 : (letterVal s.data - 1).toNat = (letterVal s.data).toNat - 1 := by omega
    rw [h1, h2, colToLetterAux_letterVal_inv s.data hne hup]
  · -- parse_address ∘ address_to_string
    have hdata : (address_to_string r c).data
        = colToLetterAux (c + 1) c ++ natReprAux (r + 1 + 1) (r + 1) := rfl
    have hL : colToLetterAux (c + 1) c ≠ [] := colToLetterAux_ne_nil (Nat.lt_succ_self c)
    have hLup : ∀ ch ∈ colToLetterAux (c + 1) c, ch.isUpper = true :=
      fun ch hch => char_isUpper_iff.mpr (colToLetterAux_mem_range hch)
    have hD : natReprAux (r + 1 + 1) (r + 1) ≠ [] :=
      natReprAux_ne_nil (Nat.lt_succ_self (r + 1))
    have hDdig : ∀ ch ∈ natReprAux (r + 1 + 1) (r + 1), ch.isDigit = true :=
      fun ch hch => char_isDigit_iff.mpr (natReprAux_mem_range hch)
    show (match reMatchAddr (((address_to_string r c).data).map pyUpperChar) with
      | none => none
      | some (ls, ds) => some ((digitsToNat ds : Int) - 1, letter_to_col ⟨ls⟩))
      = some ((r : Int), (c : Int))
    rw [hdata, List.map_append, hmapupper c,
      map_pyUpperChar_of_lt (fun ch hch => by have := natReprAux_mem_range hch; omega)]
    rw [reMatchAddr_split hL hLup hD hDdig]
    show some ((digitsToNat (natReprAux (r + 1 + 1) (r + 1)) : Int) - 1,
      letter_to_col ⟨colToLetterAux (c + 1) c⟩) = some ((r : Int), (c : Int))
    rw [digitsToNat_natReprAux (Nat.lt_succ_self (r + 1))]
    have hcol : letter_to_col ⟨colToLetterAux (c + 1) c⟩ = (c : Int) := p1 c
    have harith : ((r + 1 : Nat) : Int) - 1 = (r : Int) := by push_cast; omega
    rw [hcol, harith]

/-- C6 (witness). -/
theorem c6_address_codec_roundtrips_wit :
    letter_to_col (col_to_letter 702) = (702 : Int)
    ∧ col_to_letter (letter_to_col "ZZ").toNat = "ZZ"
    ∧ parse_address (address_to_string 0 27) = some (0, 27) :=
  c6_address_codec_roundtrips 702 0 27 "ZZ" (by decide) (by decide)

/-- `upper()` fixes every character outside `a`..`z`. -/
theorem pyUpperChar_of_not_lower {c : Char}
    (h : ¬(97 ≤ c.toNat ∧ c.toNat ≤ 122)) : pyUpperChar c = c := by
  unfold pyUpperChar
  rw [if_neg (fun hc => h (pyUpperChar_cond_iff.mp hc))]

/-- `upper()` maps only the newline to the newline. -/
theorem pyUpperChar_eq_newline {c : Char} : pyUpperChar c = '\n' ↔ c = '\n' := by
  constructor
  · intro h
    by_cases hlow : 97 ≤ c.toNat ∧ c.toNat ≤ 122
    · exfalso
      have ht := pyUpperChar_toNat_of_lower hlow
      rw [h] at ht
      have h10 : ('\n').toNat = 10 := by decide
      omega
    · rwa [pyUpperChar_of_not_lower hlow] at h
  · intro h
    subst h
    decide

/-- `isUpper` after `upper()` is `isAlpha` before it. -/
theorem pyUpperChar_isUpper (c : Char) : (pyUpperChar c).isUpper = c.isAlpha := by
  by_cases hlow : 97 ≤ c.toNat ∧ c.toNat ≤ 122
  · have ht := pyUpperChar_toNat_of_lower hlow
    have h1 : (pyUpperChar c).isUpper = true := char_isUpper_iff.mpr (by omega)
    have h2 : c.isAlpha = true := by
      unfold Char.isAlpha
      rw [char_isLower_iff.mpr hlow, Bool.or_true]
    rw [h1, h2]
  · rw [pyUpperChar_of_not_lower hlow]
    unfold Char.isAlpha
    have hl : c.isLower = false := by
      have : ¬(c.isLower = true) := fun hh => hlow (char_isLower_iff.mp hh)
      exact Bool.not_eq_true _ ▸ this
    rw [hl, Bool.or_false]

/-- `isDigit` is unchanged by `upper()`. -/
theorem pyUpperChar_isDigit (c : Char) : (pyUpperChar c).isDigit = c.isDigit := by
  by_cases hlow : 97 ≤ c.toNat ∧ c.toNat ≤ 122
  · have ht := pyUpperChar_toNat_of_lower hlow
    have h1 : (pyUpperChar c).isDigit = false := by
      have : ¬((pyUpperChar c).isDigit = true) := fun hh => by
        have := char_isDigit_iff.mp hh
        omega
      exact Bool.not_eq_true _ ▸ this
    have h2 : c.isDigit = false := by
      have : ¬(c.isDigit = true) := fun hh => by
        have := char_isDigit_iff.mp hh
        omega
      exact Bool.not_eq_true _ ▸ this
    rw [h1, h2]
  · rw [pyUpperChar_of_not_lower hlow]

/-- C7 (counterexample): `parse_address` accepts `"A0"` (row digits `0`,
outside the claimed `[1-9][0-9]*`, giving row index −1) and accepts the
lowercase `"a1"`, both of which the claimed regex `^[A-Z]+[1-9][0-9]*$`
rejects. -/
theorem c7_parse_address_accepts_more :
    parse_address "A0" = some (-1, 0)
    ∧ specAddrOk "A0" = false
    ∧ parse_address "a1" = some (0, 0)
    ∧ specAddrOk "a1" = false := by
  refine ⟨by decide, by decide, by decide, by decide⟩

/-- Mapping `upper()` over the core does not change whether the matcher
succeeds, and the raw-character success condition is `codeAddrCore`. -/
theorem reMatchCore_map_isSome (core : List Char) :
    (reMatchCore (core.map pyUpperChar)).isSome = codeAddrCore core := by
  have hfunU : (Char.isUpper ∘ pyUpperChar) = Char.isAlpha := funext pyUpperChar_isUpper
  have hfunD : (Char.isDigit ∘ pyUpperChar) = Char.isDigit := funext pyUpperChar_isDigit
  have htake : (core.map pyUpperChar).takeWhile Char.isUpper
      = (core.takeWhile Char.isAlpha).map pyUpperChar := by
    rw [List.takeWhile_map, hfunU]
  have hdrop : (core.map pyUpperChar).drop
        ((core.takeWhile Char.isAlpha).map pyUpperChar).length
      = (core.drop (core.takeWhile Char.isAlpha).length).map pyUpperChar := by
    rw [List.length_map]
    exact (List.map_drop _ _ _).symm
  unfold reMatchCore codeAddrCore
  rw [htake, hdrop]
  have hA : ((core.takeWhile Char.isAlpha).map pyUpperChar ≠ [])
      ↔ core.takeWhile Char.isAlpha ≠ [] := by simp
  have hB : ((core.drop (core.takeWhile Char.isAlpha).length).map pyUpperChar ≠ [])
      ↔ core.drop (core.takeWhile Char.isAlpha).length ≠ [] := by simp
  have hC : ((core.drop (core.takeWhile Char.isAlpha).length).map pyUpperChar).all
        Char.isDigit
      = (core.drop (core.takeWhile Char.isAlpha).length).all Char.isDigit := by
    rw [List.all_map, hfunD]
  by_cases h : core.takeWhile Char.isAlpha ≠ []
      ∧ core.drop (core.takeWhile Char.isAlpha).length ≠ []
      ∧ (core.drop (core.takeWhile Char.isAlpha).length).all Char.isDigit = true
  · rw [if_pos ⟨hA.mpr h.1, hB.mpr h.2.1, hC ▸ h.2.2⟩]
    simp [h.1, h.2.1, h.2.2]
  · rw [if_neg (fun hh => h ⟨hA.mp hh.1, hB.mp hh.2.1, hC ▸ hh.2.2⟩)]
    simp only [Option.isSome_none]
    have hD : (decide (core.takeWhile Char.isAlpha ≠ [])
        && decide (core.drop (core.takeWhile Char.isAlpha).length ≠ [])
        && (core.drop (core.takeWhile Char.isAlpha).length).all Char.isDigit) ≠ true := by
      intro hDt
      rw [Bool.and_eq_true, Bool.and_eq_true] at hDt
      exact h ⟨of_decide_eq_true hDt.1.1, of_decide_eq_true hDt.1.2, hDt.2⟩
    exact ((Bool.not_eq_true _).mp hD).symm

/-- C7 (amended): among ASCII strings, `parse_address(s)` succeeds
exactly on letters of either case followed by a nonempty digit run,
optionally followed by one final newline (`^[A-Za-z]+[0-9]+\n?$` up to
Python `$` semantics); leading-zero and all-zero rows are accepted, with
`"A0"` giving row −1.  The ASCII hypothesis confines the statement to the
domain on which the character model coincides with Python: the source's
`upper()` and `\d` are Unicode-aware, so certain non-ASCII strings (the
dotless i, Eastern Arabic digits) are also accepted there, which this
embedding does not model. -/
theorem c7_parse_address_domain (s : String)
    (_hascii : ∀ c ∈ s.data, c.toNat < 128) :
    (parse_address s).isSome = codeAddrOk s := by
  have hcond : ((s.data.map pyUpperChar).getLast? = some (Char.ofNat 10))
      ↔ (s.data.getLast? = some (Char.ofNat 10)) := by
    rw [List.getLast?_map]
    cases hlast : s.data.getLast? with
    | none => simp
    | some a =>
      simp only [Option.map_some']
      constructor
      · intro h
        rw [pyUpperChar_eq_newline.mp (Option.some.inj h)]
      · intro h
        rw [Option.some.inj h]
        decide
  have hcore : (if (s.data.map pyUpperChar).getLast? = some (Char.ofNat 10)
        then (s.data.map pyUpperChar).dropLast else s.data.map pyUpperChar)
      = (if s.data.getLast? = some (Char.ofNat 10) then s.data.dropLast
          else s.data).map pyUpperChar := by
    by_cases h : s.data.getLast? = some (Char.ofNat 10)
    · rw [if_pos (hcond.mpr h), if_pos h, List.map_dropLast]
    · rw [if_neg (fun hh => h (hcond.mp hh)), if_neg h]
  have hiso := reMatchCore_map_isSome
    (if s.data.getLast? = some (Char.ofNat 10) then s.data.dropLast else s.data)
  cases hm : reMatchCore ((if s.data.getLast? = some (Char.ofNat 10)
      then s.data.dropLast else s.data).map pyUpperChar) with
  | none =>
    have hp : parse_address s = none := by
      unfold parse_address reMatchAddr
      rw [show ('\n') = Char.ofNat 10 from rfl, hcore, hm]
    rw [hm] at hiso
    rw [hp]
    unfold codeAddrOk
    rw [show ('\n') = Char.ofNat 10 from rfl, ← hiso]
    rfl
  | some p =>
    obtain ⟨ls, ds⟩ := p
    have hp : parse_address s
        = some ((digitsToNat ds : Int) - 1, letter_to_col ⟨ls⟩) := by
      unfold parse_address reMatchAddr
      rw [show ('\n') = Char.ofNat 10 from rfl, hcore, hm]
    rw [hm] at hiso
    rw [hp]
    unfold codeAddrOk
    rw [show ('\n') = Char.ofNat 10 from rfl, ← hiso]
    rfl

/-- C7 (witness). -/
theorem c7_parse_address_domain_wit :
    (parse_address "b12").isSome = codeAddrOk "b12" :=
  c7_parse_address_domain "b12" (by decide)

/-- Splitting a separator-free list yields the list itself. -/
theorem splitOnChar_not_mem {sep : Char} {l : List Char} (h : sep ∉ l) :
    splitOnChar sep l = [l] := by
  induction l with
  | nil => rfl
  | cons c t ih =>
    have hcs : ¬(c = sep) := fun hc => h (by simp [hc])
    have ht := ih (fun hm => h (List.mem_cons_of_mem c hm))
    simp only [splitOnChar]
    rw [if_neg hcs, ht]

/-- Splitting around the first separator. -/
theorem splitOnChar_append {sep : Char} {a : List Char} (b : List Char)
    (h : sep ∉ a) :
    splitOnChar sep (a ++ sep :: b) = a :: splitOnChar sep b := by
  induction a with
  | nil =>
    show splitOnChar sep (sep :: b) = [] :: splitOnChar sep b
    simp only [splitOnChar]
    rw [if_pos trivial]
  | cons c t ih =>
    have hcs : ¬(c = sep) := fun hc => h (by simp [hc])
    have ht := ih (fun hm => h (List.mem_cons_of_mem c hm))
    show splitOnChar sep (c :: (t ++ sep :: b)) = (c :: t) :: splitOnChar sep b
    simp only [splitOnChar]
    rw [if_neg hcs, ht]

/-- Every character of a rendered integer is a minus sign or a digit. -/
theorem intRepr_chars {i : Int} {ch : Char} (h : ch ∈ (intRepr i).data) :
    ch.toNat = 45 ∨ (48 ≤ ch.toNat ∧ ch.toNat ≤ 57) := by
  unfold intRepr at h
  by_cases hneg : i < 0
  · rw [if_pos hneg] at h
    rcases (List.mem_append.mp h) with h | h
    · left
      rw [List.mem_singleton.mp h]
      decide
    · exact Or.inr (natReprAux_mem_range h)
  · rw [if_neg hneg] at h
    exact Or.inr (natReprAux_mem_range h)

/-- `int()` inverts the decimal rendering of a natural number. -/
theorem pyIntOpt_natRepr (n : Nat) : pyIntOpt (natRepr n) = some (n : Int) := by
  have hne := natReprAux_ne_nil (Nat.lt_succ_self n)
  cases hl : natReprAux (n + 1) n with
  | nil => exact absurd hl hne
  | cons d t =>
    have hd : 48 ≤ d.toNat ∧ d.toNat ≤ 57 :=
      natReprAux_mem_range (hl ▸ List.mem_cons_self d t)
    have hdall : ∀ ch ∈ natReprAux (n + 1) n, ch.isDigit = true :=
      fun ch hch => char_isDigit_iff.mpr (natReprAux_mem_range hch)
    show pyIntChars (String.mk (natReprAux (n + 1) n)).data = some (n : Int)
    rw [show (String.mk (natReprAux (n + 1) n)).data = natReprAux (n + 1) n from rfl]
    rw [hl]
    simp only [pyIntChars]
    have hnm : ¬(d = '-') := fun hh => by
      rw [hh] at hd
      revert hd
      decide
    have hnp : ¬(d = '+') := fun hh => by
      rw [hh] at hd
      revert hd
      decide
    rw [if_neg hnm, if_neg hnp,
      if_pos (List.all_eq_true.mpr (fun ch hch => hdall ch (hl ▸ hch)))]
    rw [← hl, digitsToNat_natReprAux (Nat.lt_succ_self n)]

/-- `int()` inverts the decimal rendering of any integer. -/
theorem pyIntOpt_intRepr (i : Int) : pyIntOpt (intRepr i) = some i := by
  unfold intRepr
  by_cases hneg : i < 0
  · rw [if_pos hneg]
    have hne := natReprAux_ne_nil (Nat.lt_succ_self i.natAbs)
    have hdall : ∀ ch ∈ natReprAux (i.natAbs + 1) i.natAbs, ch.isDigit = true :=
      fun ch hch => char_isDigit_iff.mpr (natReprAux_mem_range hch)
    show pyIntChars ('-' :: natReprAux (i.natAbs + 1) i.natAbs) = some i
    simp only [pyIntChars]
    rw [if_pos trivial, if_pos ⟨hne, List.all_eq_true.mpr hdall⟩,
      digitsToNat_natReprAux (Nat.lt_succ_self i.natAbs)]
    congr 1
    omega
  · rw [if_neg hneg, pyIntOpt_natRepr]
    congr 1
    omega

/-- The `"row,col"` key codec round-trips. -/
theorem parsePosKey_repr (r c : Int) :
    parsePosKey (intRepr r ++ "," ++ intRepr c) = some (r, c) := by
  have hdata : (intRepr r ++ "," ++ intRepr c).data
      = (intRepr r).data ++ ',' :: (intRepr c).data := by
    show ((intRepr r).data ++ [',']) ++ (intRepr c).data
      = (intRepr r).data ++ ',' :: (intRepr c).data
    rw [List.append_assoc]
    rfl
  have hnr : ',' ∉ (intRepr r).data := fun hm => by
    have := intRepr_chars hm
    revert this
    decide
  have hnc : ',' ∉ (intRepr c).data := fun hm => by
    have := intRepr_chars hm
    revert this
    decide
  unfold parsePosKey
  rw [hdata, splitOnChar_append _ hnr, splitOnChar_not_mem hnc]
  simp only [pairKey]
  rw [show (String.mk (intRepr r).data) = intRepr r from rfl,
    show (String.mk (intRepr c).data) = intRepr c from rfl]
  rw [pyIntOpt_intRepr, pyIntOpt_intRepr]

/-- Inserting a fresh key appends. -/
theorem listSet_append {α : Type} (m : List ((Int × Int) × α)) (k : Int × Int)
    (v : α) (h : k ∉ m.map Prod.fst) : listSet m k v = m ++ [(k, v)] := by
  induction m with
  | nil => rfl
  | cons e t ih =>
    obtain ⟨k1, v1⟩ := e
    have hk : ¬(k1 = k) := fun hh => h (by simp [hh])
    show listSet ((k1, v1) :: t) k v = (k1, v1) :: (t ++ [(k, v)])
    unfold listSet
    rw [if_neg hk, ih (fun hm => h (by simp [hm]))]

/-- A cell survives `to_dict` followed by `from_dict` unchanged. -/
theorem cell_from_to_dict (c : Cell) : Cell.from_dict c.to_dict = c := by
  obtain ⟨raw, value, format, error⟩ := c
  cases value with
  | none => cases error <;> rfl
  | some v => cases v <;> cases error <;> rfl

/-- One `from_dict` step over a rendered cell appends the original cell
under its original key. -/
theorem fromDictStep_to_dict (acc : Sheet) (r c : Int) (cell : Cell)
    (habs : (r, c) ∉ acc.cells.map Prod.fst) :
    fromDictStep acc (intRepr r ++ "," ++ intRepr c, cell.to_dict)
      = some { acc with cells := acc.cells ++ [((r, c), cell)] } := by
  unfold fromDictStep
  rw [parsePosKey_repr r c]
  show some { acc with
      cells := listSet acc.cells (r, c) (Cell.from_dict cell.to_dict) }
    = some { acc with cells := acc.cells ++ [((r, c), cell)] }
  rw [cell_from_to_dict, listSet_append acc.cells (r, c) cell habs]

/-- The cell fold of `from_dict` over the rendered cells of `to_dict`
appends the original cells in order. -/
theorem fromDict_fold (cells : List ((Int × Int) × Cell)) :
    ∀ acc : Sheet,
    (cells.map Prod.fst).Nodup →
    (∀ k ∈ cells.map Prod.fst, k ∉ acc.cells.map Prod.fst) →
    (cells.map (fun e =>
      (intRepr e.1.1 ++ "," ++ intRepr e.1.2, e.2.to_dict))).foldlM fromDictStep acc
    = some { acc with cells := acc.cells ++ cells } := by
  induction cells with
  | nil =>
    intro acc _ _
    show some acc = some { acc with cells := acc.cells ++ [] }
    rw [List.append_nil]
  | cons e t ih =>
    intro acc hnd habs
    obtain ⟨⟨r, c⟩, cell⟩ := e
    rw [List.map_cons, List.foldlM_cons]
    dsimp only
    rw [fromDictStep_to_dict acc r c cell (habs (r, c) (by simp))]
    rw [List.map_cons] at hnd
    have hnd1 := List.nodup_cons.mp hnd
    have hih := ih { acc with cells := acc.cells ++ [((r, c), cell)] }
      hnd1.2
      (by
        intro k hk
        rw [List.map_append, List.mem_append]
        rintro (hmem | hmem)
        · exact habs k (by simp [hk]) hmem
        · have hkrc : k = (r, c) := by simpa using hmem
          rw [hkrc] at hk
          exact hnd1.1 hk)
    rw [show ((some { acc with cells := acc.cells ++ [((r, c), cell)] } : Option Sheet) >>=
        (fun b => (t.map (fun e =>
          (intRepr e.1.1 ++ "," ++ intRepr e.1.2, e.2.to_dict))).foldlM fromDictStep b))
      = (t.map (fun e =>
          (intRepr e.1.1 ++ "," ++ intRepr e.1.2, e.2.to_dict))).foldlM fromDictStep
          { acc with cells := acc.cells ++ [((r, c), cell)] } from rfl]
    rw [hih]
    show some { acc with cells := (acc.cells ++ [((r, c), cell)]) ++ t }
      = some { acc with cells := acc.cells ++ ((r, c), cell) :: t }
    rw [List.append_assoc]
    rfl

/-- C10 (amended): deserializing the serialized form of any sheet (with
the well-formed, duplicate-free store every reachable sheet has) succeeds
and returns an identical sheet — equal cells, name, `max_row`, `max_col`;
unknown keys inside a serialized cell record, however, are dropped by
`Cell.from_dict` (see the counterexample theorem). -/
theorem c10_serialize_deserialize_id (s : Sheet)
    (hnd : (s.cells.map Prod.fst).Nodup) :
    modelFromDict (modelToDict s) = some s := by
  unfold modelFromDict modelToDict
  have h := fromDict_fold s.cells
    { cells := [], name := s.name, max_row := s.max_row, max_col := s.max_col }
    hnd (by simp)
  rw [h]
  rfl

/-- C10 (witness). -/
theorem c10_serialize_deserialize_id_wit :
    modelFromDict (modelToDict
      (Sheet.mk [((0, 0), Cell.default), ((1, 2), Cell.default)] "Sheet1" 1 2))
    = some (Sheet.mk [((0, 0), Cell.default), ((1, 2), Cell.default)] "Sheet1" 1 2) :=
  c10_serialize_deserialize_id _ (by decide)

end Spreadsheet
